import Mathlib

/-!
Verification development for the Smart Inventory order-processing pipeline
(`order-processor/function_app.py`).

The relational store is embedded shallowly: each SQL table is a list of row
records, and each SQL statement issued by the handlers becomes a pure
function on the database state.  The two queue handlers `process_order` and
`confirm_order` are embedded as pure state transformers for their successful
executions, together with fault-instrumented variants that model an
exception being raised at any individual statement, so that the
transactional rollback semantics of `engine.begin()` (commit on success,
roll back and re-raise on exception) can be stated and proved.

Numbers: SQL integer columns are `Int` (the inventory quantity may go
negative); JSON `price` values are modelled as `ℚ`.
-/

/-- Row of the `orders` table: `orders(order_id PK, warehouse_id, status, invoice_blob)`. -/
structure OrderRow where
  order_id : Int
  warehouse_id : Int
  status : String
  invoice_blob : Option String
deriving DecidableEq

/-- Row of the `inventory` table, keyed by (`product_id`, `warehouse_id`). -/
structure InvRow where
  product_id : Int
  warehouse_id : Int
  quantity : Int
deriving DecidableEq

/-- Row of the `order_items` table, keyed by (`order_id`, `product_id`). -/
structure ItemRow where
  order_id : Int
  product_id : Int
  quantity : Int
  price : ℚ
deriving DecidableEq

/-- Row of the `invoice` table: `invoice(order_id, created_at)`. -/
structure InvoiceRow where
  order_id : Int
  created_at : Nat
deriving DecidableEq

/-- The relational store.  Tables are lists of rows so that row duplication
(or its absence) is observable, exactly as in the SQL store. -/
structure DB where
  orders : List OrderRow
  inventory : List InvRow
  order_items : List ItemRow
  invoice : List InvoiceRow
deriving DecidableEq

/-- One element of the `items` array of an OrderEvent:
`\x7b"product_id": int, "quantity": int, "price": number\x7d`. -/
structure EventItem where
  product_id : Int
  quantity : Int
  price : ℚ
deriving DecidableEq

/-- The JSON body consumed by `process_order`:
`\x7b"order_id": int, "warehouse_id": int, "items": [...]\x7d`. -/
structure OrderEvent where
  order_id : Int
  warehouse_id : Int
  items : List EventItem
deriving DecidableEq

/-- Statement `SELECT ... FROM orders WHERE order_id = :oid` (fetchone / .first()). -/
def selectOrder (db : DB) (oid : Int) : Option OrderRow :=
  db.orders.find? (fun r => r.order_id == oid)

/-- Statement `INSERT INTO orders (order_id, warehouse_id, status) VALUES (:oid, :wid, 'reserved')`;
the `invoice_blob` column defaults to NULL. -/
def insertOrder (db : DB) (oid wid : Int) : DB :=
  { db with orders := db.orders ++ [⟨oid, wid, "reserved", none⟩] }

/-- Statement `UPDATE orders SET status = :st WHERE order_id = :oid`. -/
def updateOrderStatus (db : DB) (oid : Int) (st : String) : DB :=
  { db with orders :=
      db.orders.map (fun r => if r.order_id == oid then { r with status := st } else r) }

/-- Statement `UPDATE inventory SET quantity = quantity - :qty
     WHERE product_id = :pid AND warehouse_id = :wid`.
No row-existence check and no floor: every matching row (zero or more) has
`qty` subtracted, possibly going negative. -/
def decrementInventory (db : DB) (pid wid qty : Int) : DB :=
  { db with inventory :=
      db.inventory.map (fun r =>
        if r.product_id == pid && r.warehouse_id == wid then
          { r with quantity := r.quantity - qty }
        else r) }

/-- The (`order_id`, `product_id`) key predicate of the `order_items` table. -/
def keyMatch (oid pid : Int) (r : ItemRow) : Bool :=
  r.order_id == oid && r.product_id == pid

/-- The per-row effect of the ON DUPLICATE KEY UPDATE branch:
`UPDATE quantity = :qty, price = :price` on the key-matching row. -/
def setK (oid pid qty : Int) (price : ℚ) (r : ItemRow) : ItemRow :=
  if keyMatch oid pid r then { r with quantity := qty, price := price }
  else r

/-- Statement `INSERT INTO order_items (order_id, product_id, quantity, price)
     VALUES (...) ON DUPLICATE KEY UPDATE quantity = :qty, price = :price`:
if a row with the key (`order_id`, `product_id`) exists it is overwritten,
otherwise a fresh row is appended. -/
def upsertOrderItem (db : DB) (oid pid qty : Int) (price : ℚ) : DB :=
  if db.order_items.any (keyMatch oid pid) then
    { db with order_items := db.order_items.map (setK oid pid qty price) }
  else
    { db with order_items := db.order_items ++ [⟨oid, pid, qty, price⟩] }

/-- Statement `SELECT product_id, quantity, price FROM order_items WHERE order_id = :oid`
(.all(), in table order). -/
def selectOrderItems (db : DB) (oid : Int) : List ItemRow :=
  db.order_items.filter (fun r => r.order_id == oid)

/-- Statement `INSERT INTO invoice(order_id, created_at) VALUES (:oid, NOW())`. -/
def insertInvoice (db : DB) (oid : Int) (now : Nat) : DB :=
  { db with invoice := db.invoice ++ [⟨oid, now⟩] }

/-- Statement `UPDATE orders SET invoice_blob = :url WHERE order_id = :oid`. -/
def setInvoiceBlob (db : DB) (oid : Int) (url : String) : DB :=
  { db with orders :=
      db.orders.map (fun r => if r.order_id == oid then { r with invoice_blob := some url } else r) }

/-- One loop iteration of `process_order`'s inventory loop:
`conn.execute(UPDATE inventory ...)` for one event item. -/
def decStep (wid : Int) (d : DB) (it : EventItem) : DB :=
  decrementInventory d it.product_id wid it.quantity

/-- One loop iteration of `process_order`'s order-items loop:
`conn.execute(INSERT ... ON DUPLICATE KEY UPDATE ...)` for one event item. -/
def upsStep (oid : Int) (d : DB) (it : EventItem) : DB :=
  upsertOrderItem d oid it.product_id it.quantity it.price

/-- The insert-or-update step of `process_order`: `if not existing: INSERT
... 'reserved'` else `UPDATE orders SET status = 'reserved'`. -/
def reserveStep (ev : OrderEvent) (db : DB) : DB :=
  match selectOrder db ev.order_id with
  | none => insertOrder db ev.order_id ev.warehouse_id
  | some _ => updateOrderStatus db ev.order_id "reserved"

/-- The transactional body of `process_order` (the `with engine.begin()` block),
for a fault-free execution: insert-or-update the order as reserved, then one
inventory decrement per event item, then one order-item upsert per event item. -/
def processOrderTxn (ev : OrderEvent) (db : DB) : DB :=
  ev.items.foldl (upsStep ev.order_id)
    (ev.items.foldl (decStep ev.warehouse_id) (reserveStep ev db))

/-- Status of an order as observed through `selectOrder`. -/
def statusOf (db : DB) (oid : Int) : Option String :=
  (selectOrder db oid).map (fun r => r.status)

/-- Quantity of the inventory row for (`pid`, `wid`) as observed through a
`SELECT ... WHERE product_id = :pid AND warehouse_id = :wid` fetchone. -/
def invQty (db : DB) (pid wid : Int) : Option Int :=
  (db.inventory.find? (fun r => r.product_id == pid && r.warehouse_id == wid)).map
    (fun r => r.quantity)

/-- Number of `orders` rows carrying a given `order_id`. -/
def countOrders (db : DB) (oid : Int) : Nat :=
  db.orders.countP (fun r => r.order_id == oid)

/-- Number of `order_items` rows carrying a given (`order_id`, `product_id`) key. -/
def countItems (db : DB) (oid pid : Int) : Nat :=
  db.order_items.countP (keyMatch oid pid)

/-- The `order_items` row for a given key, as observed through fetchone. -/
def itemFind (db : DB) (oid pid : Int) : Option ItemRow :=
  db.order_items.find? (keyMatch oid pid)

/-- Total quantity the event requests for a given product: the sum of the
quantities of every occurrence of `pid` in the item list. -/
def reqSum (items : List EventItem) (pid : Int) : Int :=
  ((items.filter (fun it => it.product_id == pid)).map (fun it => it.quantity)).sum

/-- Quantity/price carried by the last occurrence of `pid` in the item list. -/
def lastVal (items : List EventItem) (pid : Int) : Option (Int × ℚ) :=
  ((items.filter (fun it => it.product_id == pid)).getLast?).map
    (fun it => (it.quantity, it.price))

/-- The `order_items` row that upserting an event item produces. -/
def mkRow (oid : Int) (it : EventItem) : ItemRow :=
  ⟨oid, it.product_id, it.quantity, it.price⟩

/-! ## Blob store and invoice document -/

/-- One body row of the rendered invoice: product id, quantity, unit price,
and the line total `float(qty) * float(price)`. -/
structure InvoiceLine where
  product_id : Int
  quantity : Int
  price : ℚ
  line_total : ℚ
deriving DecidableEq

/-- The semantic content of the generated PDF: the fields the handler prints
(order id, warehouse id, one line per fetched item, grand total).  Fonts and
layout are formatting only and are not modelled. -/
structure InvoiceDoc where
  order_id : Int
  warehouse_id : Int
  lines : List InvoiceLine
  total : ℚ
deriving DecidableEq

/-- Rendering of the invoice document from the fetched order row and items. -/
def renderInvoice (oid wid : Int) (items : List ItemRow) (total : ℚ) : InvoiceDoc :=
  ⟨oid, wid,
   items.map (fun i => ⟨i.product_id, i.quantity, i.price, (i.quantity : ℚ) * i.price⟩),
   total⟩

/-- The object store: named blobs in the `invoices` container. -/
abbrev BlobStore := List (String × InvoiceDoc)

/-- Call `blob_client.upload_blob(..., overwrite=True)`: replace the blob if the
name exists, otherwise create it. -/
def uploadBlob (bs : BlobStore) (name : String) (doc : InvoiceDoc) : BlobStore :=
  if bs.any (fun e => e.1 == name) then
    bs.map (fun e => if e.1 == name then (name, doc) else e)
  else
    bs ++ [(name, doc)]

/-- Blob lookup by name. -/
def blobLookup (bs : BlobStore) (name : String) : Option InvoiceDoc :=
  (bs.find? (fun e => e.1 == name)).map (fun e => e.2)

/-- Number of blobs stored under a given name. -/
def countName (bs : BlobStore) (name : String) : Nat :=
  bs.countP (fun e => e.1 == name)

/-- Assignment `blob_name = f"invoice_order_\x7border_id\x7d.pdf"`. -/
def blobName (oid : Int) : String :=
  "invoice_order_" ++ toString oid ++ ".pdf"

/-- The key the specification describes: `invoice_order_\x7border_id\x7d`
(stated without the `.pdf` suffix).  Declared from the specification text
for comparison against `blobName`, which is translated from the code. -/
def specBlobKey (oid : Int) : String :=
  "invoice_order_" ++ toString oid

/-- Value of `blob_client.url` for a blob of the `invoices` container; the
account-endpoint prefix is deployment configuration and is elided. -/
def blobUrl (name : String) : String :=
  "invoices/" ++ name

/-- The invoice total computed by `confirm_order`:
`sum(float(i["quantity"]) * float(i["price"]) for i in items)`. -/
def itemsTotal (items : List ItemRow) : ℚ :=
  (items.map (fun i => (i.quantity : ℚ) * i.price)).sum

/-- The first transactional block of `confirm_order` (fetch order; if absent
return, else mark confirmed, fetch items, compute the total, insert the
invoice row).  Returns the committed database plus, when the order was
found, the fetched order row, the fetched items and the computed total. -/
def confirmTxn (db : DB) (oid : Int) (now : Nat) :
    DB × Option (OrderRow × List ItemRow × ℚ) :=
  match selectOrder db oid with
  | none => (db, none)
  | some o =>
    let db1 := updateOrderStatus db oid "confirmed"
    let items := selectOrderItems db1 oid
    let total := itemsTotal items
    (insertInvoice db1 oid now, some (o, items, total))

/-- The whole `confirm_order` handler for a fault-free execution: first
transaction, then PDF rendering and blob upload, then the second transaction
setting `invoice_blob`.  Returns the final database and blob store. -/
def confirm_order (oid : Int) (now : Nat) (db : DB) (bs : BlobStore) : DB × BlobStore :=
  match confirmTxn db oid now with
  | (db1, none) => (db1, bs)
  | (db1, some (o, items, total)) =>
    let doc := renderInvoice oid o.warehouse_id items total
    let bs1 := uploadBlob bs (blobName oid) doc
    let db2 := setInvoiceBlob db1 oid (blobUrl (blobName oid))
    (db2, bs1)

/-! ## Fault-instrumented execution

`engine.begin()` commits the block on normal exit and rolls back on an
exception, which the bare `raise` in each handler's `except` clause then
re-raises to the queue runtime.  To state that behaviour, each database
statement of a transactional block is numbered and an oracle decides which
statement (if any) raises; post-commit side effects get their own fault
flags.  A fault-free oracle recovers the pure semantics above. -/

/-- Fault oracle: `or k = true` means the k-th database statement of the
block raises an exception. -/
abbrev Oracle := Nat → Bool

/-- Run a numbered list of statements starting at index `k`, threading the
database; stops with an error at the first faulted statement. -/
def runStmts (or : Oracle) : List (DB → DB) → Nat → DB → Except Unit (DB × Nat)
  | [], k, db => .ok (db, k)
  | f :: fs, k, db => if or k then .error () else runStmts or fs (k + 1) (f db)

/-- The statements `process_order` issues inside its transaction, in program
order: the SELECT (read, may still fault), the insert-or-update branch, the
per-item inventory decrements, the per-item order-item upserts.  The branch
is decided by the SELECT, which runs first against the unchanged database. -/
def processStmtList (ev : OrderEvent) (db : DB) : List (DB → DB) :=
  (fun d => d) ::
  (match selectOrder db ev.order_id with
   | none => fun d => insertOrder d ev.order_id ev.warehouse_id
   | some _ => fun d => updateOrderStatus d ev.order_id "reserved") ::
  (ev.items.map (fun it => fun d => decStep ev.warehouse_id d it)
   ++ ev.items.map (fun it => fun d => upsStep ev.order_id d it))

/-- Fault-instrumented transactional body of `process_order`. -/
def processOrderTxnF (or : Oracle) (ev : OrderEvent) (db : DB) : Except Unit DB :=
  (runStmts or (processStmtList ev db) 0 db).map (fun p => p.1)

/-- Observable outcome of one `process_order` invocation: the database that
persists, whether the invocation re-raised, and the confirmation events it
sent to `order-confirmation-queue`. -/
structure ProcResult where
  db : DB
  raised : Bool
  sent : List Int
deriving DecidableEq

/-- One `process_order` invocation: on a statement fault the transaction
rolls back (the prior database persists) and the exception is re-raised; on
commit, `send_to_confirmation_queue` runs post-commit and may itself fail
(`sendFail`), in which case the commit persists but the handler re-raises
with no message sent. -/
def process_order (or : Oracle) (sendFail : Bool) (ev : OrderEvent) (db : DB) : ProcResult :=
  match processOrderTxnF or ev db with
  | .error _ => ⟨db, true, []⟩
  | .ok db1 => if sendFail then ⟨db1, true, []⟩ else ⟨db1, false, [ev.order_id]⟩

/-- Fault-instrumented first transaction of `confirm_order`: statement 0 is
the order SELECT, 1 the status UPDATE, 2 the items SELECT, 3 the invoice
INSERT. -/
def confirmTxnF (or : Oracle) (db : DB) (oid : Int) (now : Nat) :
    Except Unit (DB × Option (OrderRow × List ItemRow × ℚ)) :=
  if or 0 then .error () else
  match selectOrder db oid with
  | none => .ok (db, none)
  | some o =>
    if or 1 then .error () else
    let db1 := updateOrderStatus db oid "confirmed"
    if or 2 then .error () else
    let items := selectOrderItems db1 oid
    let total := itemsTotal items
    if or 3 then .error () else
    .ok (insertInvoice db1 oid now, some (o, items, total))

/-- Observable outcome of one `confirm_order` invocation. -/
structure ConfResult where
  db : DB
  blobs : BlobStore
  raised : Bool
deriving DecidableEq

/-- One `confirm_order` invocation: a fault in the first transaction rolls
everything back and re-raises; an absent order commits the read-only
transaction and returns normally; after the first commit, rendering/upload
may fail (`upFail`) leaving the commit in place, re-raising, uploading
nothing; the final single-statement transaction setting `invoice_blob` may
fault (`or2 0`), rolling back only itself and re-raising. -/
def confirm_orderF (or : Oracle) (upFail : Bool) (or2 : Oracle) (oid : Int) (now : Nat)
    (db : DB) (bs : BlobStore) : ConfResult :=
  match confirmTxnF or db oid now with
  | .error _ => ⟨db, bs, true⟩
  | .ok (db1, none) => ⟨db1, bs, false⟩
  | .ok (db1, some (o, items, total)) =>
    if upFail then ⟨db1, bs, true⟩
    else
      let doc := renderInvoice oid o.warehouse_id items total
      let bs1 := uploadBlob bs (blobName oid) doc
      if or2 0 then ⟨db1, bs1, true⟩
      else ⟨setInvoiceBlob db1 oid (blobUrl (blobName oid)), bs1, false⟩

/-! ## Message-body preprocessing

`process_order` parses its body verbatim:
`order_event = json.loads(body)`; `confirm_order` first replaces every
single-quote character by a double quote:
`event = json.loads(body.replace("'", chr(34)))`. -/

/-- The single-quote character. -/
def squote : Char := Char.ofNat 39

/-- The double-quote character. -/
def dquote : Char := Char.ofNat 34

/-- Python's `body.replace("'", chr(34))` for the one-character pattern:
every single-quote character becomes a double quote. -/
def pyReplaceQuotes (s : String) : String :=
  ⟨s.data.map (fun c => if c = squote then dquote else c)⟩

/-- The string `confirm_order` hands to `json.loads`. -/
def confirmParseInput (body : String) : String :=
  pyReplaceQuotes body

/-- The string `process_order` hands to `json.loads` (the body verbatim). -/
def processParseInput (body : String) : String :=
  body

/-- The final value an item's row carries after processing the whole item
list: the last occurrence for its product wins. -/
def overwriteLast (items : List EventItem) (oid : Int) (r : ItemRow) : ItemRow :=
  if r.order_id == oid then
    match lastVal items r.product_id with
    | some v => { r with quantity := v.1, price := v.2 }
    | none => r
  else r

/-- The `order_items` primary key: at most one row per (`order_id`, `product_id`). -/
def ItemsPK (db : DB) : Prop := ∀ oid pid, countItems db oid pid ≤ 1

/-- Sequential execution of a list of `confirm_order` invocations (each a
pair of order id and timestamp) against the database and blob store. -/
def confirmRun (l : List (Int × Nat)) (db : DB) (bs : BlobStore) : DB × BlobStore :=
  l.foldl (fun s c => confirm_order c.1 c.2 s.1 s.2) (db, bs)

/-! ## Toolkit: generic list lemmas -/

theorem find?_congr_pred {α : Type _} (l : List α) (p q : α → Bool) (h : ∀ a, p a = q a) :
    l.find? p = l.find? q := by
  induction l with
  | nil => rfl
  | cons a l ih => simp only [List.find?_cons, h a, ih]

theorem map_eq_self_of_mem {α : Type _} (l : List α) (f : α → α) (h : ∀ a ∈ l, f a = a) :
    l.map f = l := by
  induction l with
  | nil => rfl
  | cons a l ih => simp [h a, ih fun b hb => h b (List.mem_cons_of_mem a hb)]

/-! ## Toolkit: table-projection facts for the primitive statements -/

theorem insertOrder_inventory (db : DB) (oid wid : Int) :
    (insertOrder db oid wid).inventory = db.inventory := rfl

theorem insertOrder_order_items (db : DB) (oid wid : Int) :
    (insertOrder db oid wid).order_items = db.order_items := rfl

theorem updateOrderStatus_inventory (db : DB) (oid : Int) (st : String) :
    (updateOrderStatus db oid st).inventory = db.inventory := rfl

theorem updateOrderStatus_order_items (db : DB) (oid : Int) (st : String) :
    (updateOrderStatus db oid st).order_items = db.order_items := rfl

theorem decrementInventory_orders (db : DB) (pid wid qty : Int) :
    (decrementInventory db pid wid qty).orders = db.orders := rfl

theorem decrementInventory_order_items (db : DB) (pid wid qty : Int) :
    (decrementInventory db pid wid qty).order_items = db.order_items := rfl

theorem upsertOrderItem_orders (db : DB) (oid pid qty : Int) (price : ℚ) :
    (upsertOrderItem db oid pid qty price).orders = db.orders := by
  unfold upsertOrderItem; split <;> rfl

theorem upsertOrderItem_inventory (db : DB) (oid pid qty : Int) (price : ℚ) :
    (upsertOrderItem db oid pid qty price).inventory = db.inventory := by
  unfold upsertOrderItem; split <;> rfl

theorem upsertOrderItem_invoice (db : DB) (oid pid qty : Int) (price : ℚ) :
    (upsertOrderItem db oid pid qty price).invoice = db.invoice := by
  unfold upsertOrderItem; split <;> rfl

theorem foldl_decStep_orders (items : List EventItem) (wid : Int) (db : DB) :
    (items.foldl (decStep wid) db).orders = db.orders := by
  induction items generalizing db with
  | nil => rfl
  | cons it its ih => rw [List.foldl_cons, ih]; rfl

theorem foldl_decStep_order_items (items : List EventItem) (wid : Int) (db : DB) :
    (items.foldl (decStep wid) db).order_items = db.order_items := by
  induction items generalizing db with
  | nil => rfl
  | cons it its ih => rw [List.foldl_cons, ih]; rfl

theorem foldl_decStep_invoice (items : List EventItem) (wid : Int) (db : DB) :
    (items.foldl (decStep wid) db).invoice = db.invoice := by
  induction items generalizing db with
  | nil => rfl
  | cons it its ih => rw [List.foldl_cons, ih]; rfl

theorem foldl_upsStep_orders (items : List EventItem) (oid : Int) (db : DB) :
    (items.foldl (upsStep oid) db).orders = db.orders := by
  induction items generalizing db with
  | nil => rfl
  | cons it its ih => rw [List.foldl_cons, ih, upsStep, upsertOrderItem_orders]

theorem foldl_upsStep_inventory (items : List EventItem) (oid : Int) (db : DB) :
    (items.foldl (upsStep oid) db).inventory = db.inventory := by
  induction items generalizing db with
  | nil => rfl
  | cons it its ih => rw [List.foldl_cons, ih, upsStep, upsertOrderItem_inventory]

theorem foldl_upsStep_invoice (items : List EventItem) (oid : Int) (db : DB) :
    (items.foldl (upsStep oid) db).invoice = db.invoice := by
  induction items generalizing db with
  | nil => rfl
  | cons it its ih => rw [List.foldl_cons, ih, upsStep, upsertOrderItem_invoice]

/-! ## Toolkit: inventory decrement characterization -/

theorem reqSum_nil (pid : Int) : reqSum [] pid = 0 := rfl

theorem reqSum_cons (it : EventItem) (its : List EventItem) (pid : Int) :
    reqSum (it :: its) pid =
      (if it.product_id == pid then it.quantity else 0) + reqSum its pid := by
  simp only [reqSum, List.filter_cons]
  split
  · simp
  · simp

/-- The inventory decrement loop, fully characterized: every row of the
event's warehouse loses the total quantity the event requests for its
product; other warehouses' rows are untouched. -/
theorem foldl_decStep_inventory (items : List EventItem) (wid : Int) (db : DB) :
    (items.foldl (decStep wid) db).inventory =
      db.inventory.map (fun r =>
        if r.warehouse_id == wid then
          { r with quantity := r.quantity - reqSum items r.product_id }
        else r) := by
  induction items generalizing db with
  | nil =>
    simp only [List.foldl_nil, reqSum_nil, sub_zero]
    rw [map_eq_self_of_mem]
    intro r _
    split <;> rfl
  | cons it its ih =>
    rw [List.foldl_cons, ih, decStep, decrementInventory, List.map_map]
    apply List.map_congr_left
    intro r _
    simp only [Function.comp_apply, reqSum_cons]
    by_cases hw : r.warehouse_id = wid
    · by_cases hp : r.product_id = it.product_id
      · simp [hw, hp, sub_sub, beq_iff_eq]
      · have : (it.product_id == r.product_id) = false := by
          simp [beq_iff_eq]; exact fun h => hp h.symm
        simp [hw, hp, this, beq_iff_eq]
    · have : (r.warehouse_id == wid) = false := by simp [beq_iff_eq, hw]
      simp [this, Bool.and_false]

/-- Behaviour of `decrementInventory` as observed through `invQty`: a missing row stays
missing and a present row's first match is decremented. -/
theorem invQty_foldl_decStep (items : List EventItem) (wid : Int) (db : DB) (pid : Int) :
    invQty (items.foldl (decStep wid) db) pid wid =
      (invQty db pid wid).map (fun q => q - reqSum items pid) := by
  rw [invQty, foldl_decStep_inventory, List.find?_map]
  have hpred : ∀ r : InvRow,
      ((fun r : InvRow => r.product_id == pid && r.warehouse_id == wid) ∘
        (fun r : InvRow =>
          if r.warehouse_id == wid then
            { r with quantity := r.quantity - reqSum items r.product_id }
          else r)) r =
      (fun r : InvRow => r.product_id == pid && r.warehouse_id == wid) r := by
    intro r
    simp only [Function.comp_apply]
    split <;> rfl
  rw [find?_congr_pred _ _ _ hpred, invQty]
  cases hfind : db.inventory.find? (fun r => r.product_id == pid && r.warehouse_id == wid) with
  | none => rfl
  | some r =>
    have hr := List.find?_some hfind
    simp only [Bool.and_eq_true, beq_iff_eq] at hr
    simp [Option.map_map, hr.1, hr.2]

/-! ## Toolkit: order-row lemmas -/

/-- Finding an order row through a transformation that preserves `order_id`. -/
theorem find?_orders_map (l : List OrderRow) (g : OrderRow → OrderRow) (oid : Int)
    (hg : ∀ r, (g r).order_id = r.order_id) :
    (l.map g).find? (fun r => r.order_id == oid) =
      (l.find? (fun r => r.order_id == oid)).map g := by
  rw [List.find?_map]
  congr 1
  apply find?_congr_pred
  intro r
  simp [Function.comp_apply, hg]

theorem updateOrderStatus_id_preserved (oid : Int) (st : String) (r : OrderRow) :
    ((fun r : OrderRow => if r.order_id == oid then { r with status := st } else r) r).order_id
      = r.order_id := by
  dsimp only
  split <;> rfl

theorem setInvoiceBlob_id_preserved (oid : Int) (url : String) (r : OrderRow) :
    ((fun r : OrderRow => if r.order_id == oid then { r with invoice_blob := some url } else r) r).order_id
      = r.order_id := by
  dsimp only
  split <;> rfl

theorem selectOrder_updateOrderStatus (db : DB) (oid oid' : Int) (st : String) :
    selectOrder (updateOrderStatus db oid st) oid' =
      (selectOrder db oid').map
        (fun r => if r.order_id == oid then { r with status := st } else r) := by
  unfold selectOrder updateOrderStatus
  exact find?_orders_map _ _ _ (updateOrderStatus_id_preserved oid st)

theorem selectOrder_setInvoiceBlob (db : DB) (oid oid' : Int) (url : String) :
    selectOrder (setInvoiceBlob db oid url) oid' =
      (selectOrder db oid').map
        (fun r => if r.order_id == oid then { r with invoice_blob := some url } else r) := by
  unfold selectOrder setInvoiceBlob
  exact find?_orders_map _ _ _ (setInvoiceBlob_id_preserved oid url)

theorem selectOrder_insertOrder_self (db : DB) (oid wid : Int)
    (h : selectOrder db oid = none) :
    selectOrder (insertOrder db oid wid) oid = some ⟨oid, wid, "reserved", none⟩ := by
  unfold selectOrder insertOrder at *
  rw [List.find?_append, h]
  simp

/-- After the insert-or-update step of `process_order`, the order reads back
with status "reserved" whatever the prior table contents. -/
theorem statusOf_processOrderTxn (ev : OrderEvent) (db : DB) :
    statusOf (processOrderTxn ev db) ev.order_id = some "reserved" := by
  unfold processOrderTxn statusOf
  have horders :
      selectOrder
        (List.foldl (upsStep ev.order_id)
          (List.foldl (decStep ev.warehouse_id) (reserveStep ev db) ev.items) ev.items)
        ev.order_id =
      selectOrder (reserveStep ev db) ev.order_id := by
    unfold selectOrder
    rw [foldl_upsStep_orders, foldl_decStep_orders]
  rw [horders]
  unfold reserveStep
  cases hsel : selectOrder db ev.order_id with
  | none => rw [selectOrder_insertOrder_self db _ _ hsel]; rfl
  | some r =>
    rw [selectOrder_updateOrderStatus, hsel]
    have hid := List.find?_some hsel
    simp only [beq_iff_eq] at hid
    simp [hid]

theorem countOrders_insertOrder_self (db : DB) (oid wid : Int) :
    countOrders (insertOrder db oid wid) oid = countOrders db oid + 1 := by
  unfold countOrders insertOrder
  simp [List.countP_append, List.countP_cons]

theorem countOrders_updateOrderStatus (db : DB) (oid oid' : Int) (st : String) :
    countOrders (updateOrderStatus db oid st) oid' = countOrders db oid' := by
  unfold countOrders updateOrderStatus
  rw [List.countP_map]
  apply List.countP_congr
  intro r _
  simp only [Function.comp_apply]
  split <;> rfl

theorem countOrders_eq_zero_of_selectOrder_none (db : DB) (oid : Int)
    (h : selectOrder db oid = none) : countOrders db oid = 0 := by
  unfold selectOrder at h
  unfold countOrders
  rw [List.countP_eq_zero]
  intro r hr
  exact List.find?_eq_none.mp h r hr

theorem countOrders_pos_of_selectOrder_some (db : DB) (oid : Int) (r : OrderRow)
    (h : selectOrder db oid = some r) : 0 < countOrders db oid := by
  unfold selectOrder at h
  unfold countOrders
  rw [List.countP_pos_iff]
  refine ⟨r, List.mem_of_find?_eq_some h, ?_⟩
  have h2 := List.find?_some h
  exact h2

/-- Handler `process_order` leaves exactly one order row when the initial table
respects the primary key (at most one row for the id). -/
theorem countOrders_processOrderTxn (ev : OrderEvent) (db : DB)
    (hpk : countOrders db ev.order_id ≤ 1) :
    countOrders (processOrderTxn ev db) ev.order_id = 1 := by
  unfold processOrderTxn
  have hcount :
      countOrders
        (List.foldl (upsStep ev.order_id)
          (List.foldl (decStep ev.warehouse_id) (reserveStep ev db) ev.items) ev.items)
        ev.order_id =
      countOrders (reserveStep ev db) ev.order_id := by
    unfold countOrders
    rw [foldl_upsStep_orders, foldl_decStep_orders]
  rw [hcount]
  unfold reserveStep
  cases hsel : selectOrder db ev.order_id with
  | none =>
    rw [countOrders_insertOrder_self, countOrders_eq_zero_of_selectOrder_none db _ hsel]
  | some r =>
    rw [countOrders_updateOrderStatus]
    exact Nat.le_antisymm hpk (countOrders_pos_of_selectOrder_some db _ r hsel)

/-! ## Toolkit: order-item upsert machinery -/

theorem setK_key_order_id (oid pid qty : Int) (price : ℚ) (r : ItemRow) :
    (setK oid pid qty price r).order_id = r.order_id := by
  unfold setK; split <;> rfl

theorem setK_key_product_id (oid pid qty : Int) (price : ℚ) (r : ItemRow) :
    (setK oid pid qty price r).product_id = r.product_id := by
  unfold setK; split <;> rfl

theorem keyMatch_setK (oid' pid' oid pid qty : Int) (price : ℚ) (r : ItemRow) :
    keyMatch oid' pid' (setK oid pid qty price r) = keyMatch oid' pid' r := by
  unfold keyMatch
  rw [setK_key_order_id, setK_key_product_id]

theorem upsertOrderItem_of_any (db : DB) (oid pid qty : Int) (price : ℚ)
    (h : db.order_items.any (keyMatch oid pid) = true) :
    (upsertOrderItem db oid pid qty price).order_items =
      db.order_items.map (setK oid pid qty price) := by
  unfold upsertOrderItem
  rw [if_pos h]

theorem upsertOrderItem_of_not_any (db : DB) (oid pid qty : Int) (price : ℚ)
    (h : db.order_items.any (keyMatch oid pid) = false) :
    (upsertOrderItem db oid pid qty price).order_items =
      db.order_items ++ [⟨oid, pid, qty, price⟩] := by
  unfold upsertOrderItem
  rw [if_neg]
  simp only [h, Bool.false_eq_true, not_false_eq_true]

theorem upsertOrderItem_any_self (db : DB) (oid pid qty : Int) (price : ℚ) :
    (upsertOrderItem db oid pid qty price).order_items.any (keyMatch oid pid) = true := by
  cases h : db.order_items.any (keyMatch oid pid) with
  | true =>
    rw [upsertOrderItem_of_any db oid pid qty price h, List.any_map]
    rw [List.any_eq_true] at h ⊢
    obtain ⟨r, hr, hkey⟩ := h
    refine ⟨r, hr, ?_⟩
    simpa [Function.comp_apply, keyMatch_setK] using hkey
  | false =>
    rw [upsertOrderItem_of_not_any db oid pid qty price h, List.any_append]
    simp [keyMatch]

theorem upsertOrderItem_any_mono (db : DB) (oid' pid' oid pid qty : Int) (price : ℚ)
    (h : db.order_items.any (keyMatch oid' pid') = true) :
    (upsertOrderItem db oid pid qty price).order_items.any (keyMatch oid' pid') = true := by
  cases hany : db.order_items.any (keyMatch oid pid) with
  | true =>
    rw [upsertOrderItem_of_any db oid pid qty price hany, List.any_map]
    rw [List.any_eq_true] at h ⊢
    obtain ⟨r, hr, hkey⟩ := h
    refine ⟨r, hr, ?_⟩
    simpa [Function.comp_apply, keyMatch_setK] using hkey
  | false =>
    rw [upsertOrderItem_of_not_any db oid pid qty price hany, List.any_append, h]
    rfl

theorem foldl_upsStep_any_mono (items : List EventItem) (oid oid' pid' : Int) (db : DB)
    (h : db.order_items.any (keyMatch oid' pid') = true) :
    (items.foldl (upsStep oid) db).order_items.any (keyMatch oid' pid') = true := by
  induction items generalizing db with
  | nil => exact h
  | cons it its ih =>
    rw [List.foldl_cons]
    exact ih _ (upsertOrderItem_any_mono db oid' pid' oid it.product_id it.quantity it.price h)

/-- After the upsert loop, every event item's key is present in the table. -/
theorem foldl_upsStep_any (items : List EventItem) (oid : Int) (db : DB) :
    ∀ it ∈ items, (items.foldl (upsStep oid) db).order_items.any
      (keyMatch oid it.product_id) = true := by
  induction items generalizing db with
  | nil => intro it h; cases h
  | cons it0 its ih =>
    intro it hmem
    rw [List.foldl_cons]
    rcases List.mem_cons.mp hmem with h | h
    · subst h
      exact foldl_upsStep_any_mono its oid oid it.product_id _
        (upsertOrderItem_any_self db oid it.product_id it.quantity it.price)
    · exact ih _ it h

theorem lastVal_nil (pid : Int) : lastVal [] pid = none := rfl

theorem lastVal_cons (it : EventItem) (its : List EventItem) (pid : Int) :
    lastVal (it :: its) pid =
      if it.product_id == pid then some ((lastVal its pid).getD (it.quantity, it.price))
      else lastVal its pid := by
  unfold lastVal
  rw [List.filter_cons]
  split
  · rw [List.getLast?_cons]
    cases hl : (its.filter (fun it => it.product_id == pid)).getLast? with
    | none => simp [hl]
    | some a => simp [hl]
  · rfl

theorem lastVal_none_of_not_mem (items : List EventItem) (pid : Int)
    (h : pid ∉ items.map (fun it => it.product_id)) : lastVal items pid = none := by
  unfold lastVal
  have : items.filter (fun it => it.product_id == pid) = [] := by
    rw [List.filter_eq_nil_iff]
    intro it hmem
    simp only [beq_iff_eq]
    intro heq
    exact h (heq ▸ List.mem_map_of_mem (fun it => it.product_id) hmem)
  rw [this]
  rfl

theorem lastVal_isSome_of_mem (items : List EventItem) (pid : Int)
    (h : pid ∈ items.map (fun it => it.product_id)) : (lastVal items pid).isSome = true := by
  unfold lastVal
  cases hg : (items.filter (fun it => it.product_id == pid)).getLast? with
  | some a => rfl
  | none =>
    exfalso
    rw [List.getLast?_eq_none_iff] at hg
    obtain ⟨it, hmem, heq⟩ := List.mem_map.mp h
    have : it ∈ items.filter (fun it => it.product_id == pid) := by
      rw [List.mem_filter]
      exact ⟨hmem, by simp [heq]⟩
    rw [hg] at this
    cases this

/-- One update step composed with the remaining overwrites equals the
overwrite by the whole list: the last occurrence wins. -/
theorem overwriteLast_setK (it : EventItem) (its : List EventItem) (oid : Int) (r : ItemRow) :
    overwriteLast its oid (setK oid it.product_id it.quantity it.price r) =
      overwriteLast (it :: its) oid r := by
  by_cases hoid : r.order_id = oid
  · by_cases hpid : r.product_id = it.product_id
    · simp only [setK, keyMatch, overwriteLast, hoid, hpid, beq_self_eq_true, Bool.and_self,
        if_true, lastVal_cons]
      cases hl : lastVal its it.product_id with
      | none => simp [hl]
      | some v => simp [hl]
    · have hne : it.product_id ≠ r.product_id := fun h => hpid h.symm
      simp only [setK, keyMatch, overwriteLast, hoid, hpid, beq_self_eq_true, Bool.true_and,
        beq_iff_eq, if_false, lastVal_cons, hne, if_true]
  · simp [setK, keyMatch, overwriteLast, hoid]

/-- When every event item's key already has a row, the upsert loop never
appends: it maps every row to its last-occurrence overwrite. -/
theorem foldl_upsStep_of_all_any (items : List EventItem) (oid : Int) (db : DB)
    (h : ∀ it ∈ items, db.order_items.any (keyMatch oid it.product_id) = true) :
    (items.foldl (upsStep oid) db).order_items =
      db.order_items.map (overwriteLast items oid) := by
  induction items generalizing db with
  | nil =>
    rw [List.foldl_nil, map_eq_self_of_mem]
    intro r _
    unfold overwriteLast
    rw [lastVal_nil]
    split <;> rfl
  | cons it its ih =>
    rw [List.foldl_cons]
    have hit := h it (List.mem_cons_self it its)
    have hupd : (upsStep oid db it).order_items =
        db.order_items.map (setK oid it.product_id it.quantity it.price) := by
      unfold upsStep
      exact upsertOrderItem_of_any db oid it.product_id it.quantity it.price hit
    have hrest : ∀ it' ∈ its, (upsStep oid db it).order_items.any
        (keyMatch oid it'.product_id) = true := by
      intro it' hmem
      unfold upsStep
      exact upsertOrderItem_any_mono db oid it'.product_id oid it.product_id it.quantity
        it.price (h it' (List.mem_cons_of_mem it hmem))
    rw [ih _ hrest, hupd, List.map_map]
    apply List.map_congr_left
    intro r _
    simp only [Function.comp_apply]
    exact overwriteLast_setK it its oid r

theorem keyMatch_eq_true (oid pid : Int) (r : ItemRow) :
    keyMatch oid pid r = true ↔ r.order_id = oid ∧ r.product_id = pid := by
  simp [keyMatch]

/-- Rows whose product never occurs in the remaining items pass through the
upsert loop unchanged (they come from the input table). -/
theorem foldl_upsStep_mem_untouched (items : List EventItem) (oid pid : Int) (db : DB)
    (hpid : pid ∉ items.map (fun it => it.product_id)) :
    ∀ r ∈ (items.foldl (upsStep oid) db).order_items, keyMatch oid pid r = true →
      r ∈ db.order_items := by
  induction items generalizing db with
  | nil => intro r hr _; exact hr
  | cons it its ih =>
    intro r hr hkey
    have hpid' : pid ∉ its.map (fun it => it.product_id) := by
      intro h
      exact hpid (List.mem_cons_of_mem _ h)
    have hne : pid ≠ it.product_id := by
      intro h
      exact hpid (h ▸ List.mem_cons_self _ _)
    rw [List.foldl_cons] at hr
    have hr2 := ih _ hpid' r hr hkey
    obtain ⟨hroid, hrpid⟩ := (keyMatch_eq_true oid pid r).mp hkey
    unfold upsStep at hr2
    cases hany : db.order_items.any (keyMatch oid it.product_id) with
    | true =>
      rw [upsertOrderItem_of_any db oid it.product_id it.quantity it.price hany] at hr2
      obtain ⟨r0, hr0, heq⟩ := List.mem_map.mp hr2
      have hr0key : keyMatch oid it.product_id r0 = false := by
        cases hk : keyMatch oid it.product_id r0 with
        | false => rfl
        | true =>
          exfalso
          obtain ⟨_, hp0⟩ := (keyMatch_eq_true oid it.product_id r0).mp hk
          have : r.product_id = r0.product_id := by rw [← heq, setK_key_product_id]
          exact hne (hrpid ▸ this ▸ hp0)
      have : setK oid it.product_id it.quantity it.price r0 = r0 := by
        unfold setK
        rw [hr0key]
        rfl
      rw [this] at heq
      exact heq ▸ hr0
    | false =>
      rw [upsertOrderItem_of_not_any db oid it.product_id it.quantity it.price hany] at hr2
      rcases List.mem_append.mp hr2 with h | h
      · exact h
      · exfalso
        have : r = (⟨oid, it.product_id, it.quantity, it.price⟩ : ItemRow) :=
          List.mem_singleton.mp h
        exact hne (by rw [← hrpid, this])

/-- Every row the upsert loop leaves for the event's order carries the
quantity and price of the last occurrence of its product in the item list. -/
theorem foldl_upsStep_last_values (items : List EventItem) (oid : Int) (db : DB) :
    ∀ r ∈ (items.foldl (upsStep oid) db).order_items, r.order_id = oid →
      ∀ v, lastVal items r.product_id = some v → r.quantity = v.1 ∧ r.price = v.2 := by
  induction items generalizing db with
  | nil =>
    intro r _ _ v hv
    rw [lastVal_nil] at hv
    cases hv
  | cons it its ih =>
    intro r hr hroid v hv
    rw [List.foldl_cons] at hr
    by_cases hmem : r.product_id ∈ its.map (fun it => it.product_id)
    · have hlast : lastVal its r.product_id = some v := by
        rw [lastVal_cons] at hv
        cases hbeq : (it.product_id == r.product_id) with
        | false => rw [hbeq] at hv; simpa using hv
        | true =>
          rw [hbeq] at hv
          simp only [if_true] at hv
          have hsome := lastVal_isSome_of_mem its r.product_id hmem
          cases hl : lastVal its r.product_id with
          | none => rw [hl] at hsome; cases hsome
          | some w => rw [hl] at hv; simpa using hv
      exact ih _ r hr hroid v hlast
    · have hr2 := foldl_upsStep_mem_untouched its oid r.product_id _ hmem r hr
        ((keyMatch_eq_true _ _ _).mpr ⟨hroid, rfl⟩)
      have hnone := lastVal_none_of_not_mem its r.product_id hmem
      rw [lastVal_cons, hnone] at hv
      cases hbeq : (it.product_id == r.product_id) with
      | false => rw [hbeq] at hv; cases hv
      | true =>
        rw [hbeq] at hv
        simp only [Option.getD_none, if_true] at hv
        have hpid : r.product_id = it.product_id := by
          have := (beq_iff_eq).mp hbeq
          exact this.symm
        obtain ⟨hv1, hv2⟩ : v.1 = it.quantity ∧ v.2 = it.price := by
          cases hv
          exact ⟨rfl, rfl⟩
        unfold upsStep at hr2
        cases hany : db.order_items.any (keyMatch oid it.product_id) with
        | true =>
          rw [upsertOrderItem_of_any db oid it.product_id it.quantity it.price hany] at hr2
          obtain ⟨r0, _, heq⟩ := List.mem_map.mp hr2
          have hr0key : keyMatch oid it.product_id r0 = true := by
            cases hk : keyMatch oid it.product_id r0 with
            | true => rfl
            | false =>
              exfalso
              have hsk : setK oid it.product_id it.quantity it.price r0 = r0 := by
                unfold setK; rw [hk]; rfl
              rw [hsk] at heq
              have hkt : keyMatch oid it.product_id r0 = true :=
                (keyMatch_eq_true _ _ _).mpr ⟨by rw [heq]; exact hroid, by rw [heq]; exact hpid⟩
              rw [hkt] at hk
              cases hk
          have : setK oid it.product_id it.quantity it.price r0 =
              { r0 with quantity := it.quantity, price := it.price } := by
            unfold setK; rw [hr0key]; rfl
          rw [this] at heq
          constructor
          · rw [← heq, hv1]
          · rw [← heq, hv2]
        | false =>
          rw [upsertOrderItem_of_not_any db oid it.product_id it.quantity it.price hany] at hr2
          rcases List.mem_append.mp hr2 with h | h
          · exfalso
            have hat : db.order_items.any (keyMatch oid it.product_id) = true := by
              rw [List.any_eq_true]
              exact ⟨r, h, (keyMatch_eq_true _ _ _).mpr ⟨hroid, hpid⟩⟩
            rw [hat] at hany
            cases hany
          · have : r = (⟨oid, it.product_id, it.quantity, it.price⟩ : ItemRow) :=
              List.mem_singleton.mp h
            rw [this, hv1, hv2]
            exact ⟨rfl, rfl⟩

/-! ## Toolkit: key counts and the primary-key invariant -/

theorem countItems_upsert_self (db : DB) (oid pid qty : Int) (price : ℚ)
    (hpk : countItems db oid pid ≤ 1) :
    countItems (upsertOrderItem db oid pid qty price) oid pid = 1 := by
  unfold countItems at *
  cases hany : db.order_items.any (keyMatch oid pid) with
  | true =>
    rw [upsertOrderItem_of_any db oid pid qty price hany, List.countP_map]
    have hc : db.order_items.countP (keyMatch oid pid ∘ setK oid pid qty price) =
        db.order_items.countP (keyMatch oid pid) := by
      apply List.countP_congr
      intro r _
      simp only [Function.comp_apply]
      rw [keyMatch_setK]
    rw [hc]
    rw [List.any_eq_true] at hany
    obtain ⟨r, hr, hkey⟩ := hany
    have hpos : 0 < db.order_items.countP (keyMatch oid pid) := by
      rw [List.countP_pos_iff]
      exact ⟨r, hr, hkey⟩
    exact Nat.le_antisymm hpk hpos
  | false =>
    rw [upsertOrderItem_of_not_any db oid pid qty price hany, List.countP_append]
    have hz : db.order_items.countP (keyMatch oid pid) = 0 := by
      rw [List.countP_eq_zero]
      intro r hr
      rw [List.any_eq_false] at hany
      exact hany r hr
    rw [hz]
    simp [keyMatch]

theorem countItems_upsert_other (db : DB) (oid pid oid' pid' qty : Int) (price : ℚ)
    (h : ¬(oid' = oid ∧ pid' = pid)) :
    countItems (upsertOrderItem db oid pid qty price) oid' pid' =
      countItems db oid' pid' := by
  unfold countItems
  cases hany : db.order_items.any (keyMatch oid pid) with
  | true =>
    rw [upsertOrderItem_of_any db oid pid qty price hany, List.countP_map]
    apply List.countP_congr
    intro r _
    simp only [Function.comp_apply]
    rw [keyMatch_setK]
  | false =>
    rw [upsertOrderItem_of_not_any db oid pid qty price hany, List.countP_append]
    have : keyMatch oid' pid' (⟨oid, pid, qty, price⟩ : ItemRow) = false := by
      cases hk : keyMatch oid' pid' (⟨oid, pid, qty, price⟩ : ItemRow) with
      | false => rfl
      | true =>
        exfalso
        obtain ⟨h1, h2⟩ := (keyMatch_eq_true oid' pid' _).mp hk
        exact h ⟨h1.symm, h2.symm⟩
    simp [this]

theorem ItemsPK_upsert (db : DB) (oid pid qty : Int) (price : ℚ) (hpk : ItemsPK db) :
    ItemsPK (upsertOrderItem db oid pid qty price) := by
  intro oid' pid'
  by_cases h : oid' = oid ∧ pid' = pid
  · obtain ⟨h1, h2⟩ := h
    subst h1; subst h2
    rw [countItems_upsert_self db oid' pid' qty price (hpk oid' pid')]
  · rw [countItems_upsert_other db oid pid oid' pid' qty price h]
    exact hpk oid' pid'

theorem countItems_foldl_upsStep_not_mem (items : List EventItem) (oid oid' pid : Int)
    (db : DB) (h : pid ∉ items.map (fun it => it.product_id)) :
    countItems (items.foldl (upsStep oid) db) oid' pid = countItems db oid' pid := by
  induction items generalizing db with
  | nil => rfl
  | cons it its ih =>
    rw [List.foldl_cons]
    have hne : pid ≠ it.product_id := fun heq => h (heq ▸ List.mem_cons_self _ _)
    have h' : pid ∉ its.map (fun it => it.product_id) := fun hm =>
      h (List.mem_cons_of_mem _ hm)
    rw [ih _ h']
    exact countItems_upsert_other db oid it.product_id oid' pid it.quantity it.price
      (fun hc => hne hc.2)

/-- After the upsert loop, a product occurring in the event has exactly one
row for the event's order, provided the table respected its primary key. -/
theorem countItems_foldl_upsStep_of_mem (items : List EventItem) (oid pid : Int) (db : DB)
    (hpk : ItemsPK db) (h : pid ∈ items.map (fun it => it.product_id)) :
    countItems (items.foldl (upsStep oid) db) oid pid = 1 := by
  induction items generalizing db with
  | nil => cases h
  | cons it its ih =>
    rw [List.foldl_cons]
    by_cases hmem : pid ∈ its.map (fun it => it.product_id)
    · exact ih _ (ItemsPK_upsert db oid it.product_id it.quantity it.price hpk) hmem
    · have hpid : pid = it.product_id := by
        rcases List.mem_cons.mp h with h0 | h0
        · exact h0
        · exact absurd h0 hmem
      rw [hpid] at hmem ⊢
      rw [countItems_foldl_upsStep_not_mem its oid oid it.product_id _ hmem]
      exact countItems_upsert_self db oid it.product_id it.quantity it.price
        (hpk oid it.product_id)

/-- The upsert loop is idempotent on its own output: overwriting again with
the same item list changes nothing. -/
theorem foldl_upsStep_overwrite_id (items : List EventItem) (oid : Int) (db : DB) :
    (items.foldl (upsStep oid) db).order_items.map (overwriteLast items oid) =
      (items.foldl (upsStep oid) db).order_items := by
  apply map_eq_self_of_mem
  intro r hr
  unfold overwriteLast
  cases hb : (r.order_id == oid) with
  | false => simp
  | true =>
    simp only [if_true]
    cases hl : lastVal items r.product_id with
    | none => rfl
    | some v =>
      obtain ⟨h1, h2⟩ := foldl_upsStep_last_values items oid db r hr (beq_iff_eq.mp hb) v hl
      cases r
      simp_all

/-! ## Toolkit: fresh-order upsert behaviour and nodup events -/

/-- When no key of the item list is present yet, the upsert loop appends one
fresh row per item, in event order. -/
theorem foldl_upsStep_fresh (items : List EventItem) (oid : Int) (db : DB)
    (hpre : ∀ r ∈ db.order_items, r.order_id = oid →
      r.product_id ∉ items.map (fun it => it.product_id))
    (hnd : (items.map (fun it => it.product_id)).Nodup) :
    (items.foldl (upsStep oid) db).order_items =
      db.order_items ++ items.map (mkRow oid) := by
  induction items generalizing db with
  | nil => simp
  | cons it its ih =>
    rw [List.foldl_cons]
    have hany : db.order_items.any (keyMatch oid it.product_id) = false := by
      cases h : db.order_items.any (keyMatch oid it.product_id) with
      | false => rfl
      | true =>
        exfalso
        rw [List.any_eq_true] at h
        obtain ⟨r, hr, hkey⟩ := h
        obtain ⟨h1, h2⟩ := (keyMatch_eq_true oid it.product_id r).mp hkey
        exact hpre r hr h1 (h2 ▸ List.mem_cons_self _ _)
    have hups : (upsStep oid db it).order_items = db.order_items ++ [mkRow oid it] := by
      unfold upsStep
      exact upsertOrderItem_of_not_any db oid it.product_id it.quantity it.price hany
    have hnd' : (its.map (fun it => it.product_id)).Nodup := (List.nodup_cons.mp hnd).2
    have hhead : it.product_id ∉ its.map (fun it => it.product_id) :=
      (List.nodup_cons.mp hnd).1
    have hpre' : ∀ r ∈ (upsStep oid db it).order_items, r.order_id = oid →
        r.product_id ∉ its.map (fun it => it.product_id) := by
      intro r hr hoid
      rw [hups] at hr
      rcases List.mem_append.mp hr with h | h
      · exact fun hm => hpre r h hoid (List.mem_cons_of_mem _ hm)
      · have : r = mkRow oid it := List.mem_singleton.mp h
        rw [this]
        exact hhead
    rw [ih _ hpre' hnd', hups, List.append_assoc]
    rfl

theorem filter_pid_eq_singleton (items : List EventItem) (it : EventItem)
    (hnd : (items.map (fun x => x.product_id)).Nodup) (hmem : it ∈ items) :
    items.filter (fun x => x.product_id == it.product_id) = [it] := by
  induction items with
  | nil => cases hmem
  | cons a its ih =>
    have hhead : a.product_id ∉ its.map (fun x => x.product_id) :=
      (List.nodup_cons.mp hnd).1
    have hnd' : (its.map (fun x => x.product_id)).Nodup := (List.nodup_cons.mp hnd).2
    rcases List.mem_cons.mp hmem with h | h
    · subst h
      rw [List.filter_cons]
      have : (it.product_id == it.product_id) = true := by simp
      rw [if_pos this]
      have hrest : its.filter (fun x => x.product_id == it.product_id) = [] := by
        rw [List.filter_eq_nil_iff]
        intro x hx
        simp only [beq_iff_eq]
        intro heq
        exact hhead (heq ▸ List.mem_map_of_mem (fun x => x.product_id) hx)
      rw [hrest]
    · have hne : a.product_id ≠ it.product_id := by
        intro heq
        exact hhead (heq ▸ List.mem_map_of_mem (fun x => x.product_id) h)
      rw [List.filter_cons]
      have : (a.product_id == it.product_id) = false := by simp [hne]
      rw [this]
      simp only [Bool.false_eq_true, if_false]
      exact ih hnd' h

theorem reqSum_of_nodup (items : List EventItem) (it : EventItem)
    (hnd : (items.map (fun x => x.product_id)).Nodup) (hmem : it ∈ items) :
    reqSum items it.product_id = it.quantity := by
  unfold reqSum
  rw [filter_pid_eq_singleton items it hnd hmem]
  simp

theorem lastVal_of_nodup (items : List EventItem) (it : EventItem)
    (hnd : (items.map (fun x => x.product_id)).Nodup) (hmem : it ∈ items) :
    lastVal items it.product_id = some (it.quantity, it.price) := by
  unfold lastVal
  rw [filter_pid_eq_singleton items it hnd hmem]
  rfl

theorem reserveStep_order_items (ev : OrderEvent) (db : DB) :
    (reserveStep ev db).order_items = db.order_items := by
  unfold reserveStep
  cases selectOrder db ev.order_id <;> rfl

theorem reserveStep_inventory (ev : OrderEvent) (db : DB) :
    (reserveStep ev db).inventory = db.inventory := by
  unfold reserveStep
  cases selectOrder db ev.order_id <;> rfl

/-- The inventory a `process_order` transaction leaves behind, observed per
(`product_id`, event warehouse) key. -/
theorem invQty_processOrderTxn (ev : OrderEvent) (db : DB) (pid : Int) :
    invQty (processOrderTxn ev db) pid ev.warehouse_id =
      (invQty db pid ev.warehouse_id).map (fun q => q - reqSum ev.items pid) := by
  unfold processOrderTxn
  have hinv : invQty (List.foldl (upsStep ev.order_id)
      (List.foldl (decStep ev.warehouse_id) (reserveStep ev db) ev.items) ev.items)
        pid ev.warehouse_id =
      invQty (List.foldl (decStep ev.warehouse_id) (reserveStep ev db) ev.items)
        pid ev.warehouse_id := by
    unfold invQty
    rw [foldl_upsStep_inventory]
  rw [hinv, invQty_foldl_decStep]
  unfold invQty
  rw [reserveStep_inventory]

/-- The order-item rows a `process_order` transaction leaves behind are
those of the upsert loop run on the unchanged input table. -/
theorem processOrderTxn_order_items (ev : OrderEvent) (db : DB) :
    (processOrderTxn ev db).order_items =
      (ev.items.foldl (upsStep ev.order_id)
        (List.foldl (decStep ev.warehouse_id) (reserveStep ev db) ev.items)).order_items :=
  rfl

theorem selectOrderItems_congr (db db' : DB) (oid : Int)
    (h : db.order_items = db'.order_items) :
    selectOrderItems db oid = selectOrderItems db' oid := by
  unfold selectOrderItems
  rw [h]

/-- The order-items result of the upsert loop depends only on the input
`order_items` table. -/
theorem foldl_upsStep_order_items_congr (items : List EventItem) (oid : Int) (db db' : DB)
    (h : db.order_items = db'.order_items) :
    (items.foldl (upsStep oid) db).order_items =
      (items.foldl (upsStep oid) db').order_items := by
  induction items generalizing db db' with
  | nil => exact h
  | cons it its ih =>
    rw [List.foldl_cons, List.foldl_cons]
    apply ih
    unfold upsStep upsertOrderItem
    rw [h]
    split <;> rfl

/-! ## Toolkit: confirm-path lemmas -/

theorem insertInvoice_orders (db : DB) (oid : Int) (now : Nat) :
    (insertInvoice db oid now).orders = db.orders := rfl

theorem insertInvoice_order_items (db : DB) (oid : Int) (now : Nat) :
    (insertInvoice db oid now).order_items = db.order_items := rfl

theorem setInvoiceBlob_order_items (db : DB) (oid : Int) (url : String) :
    (setInvoiceBlob db oid url).order_items = db.order_items := rfl

theorem statusOf_insertInvoice (db : DB) (oid' : Int) (now : Nat) (oid : Int) :
    statusOf (insertInvoice db oid' now) oid = statusOf db oid := rfl

theorem statusOf_setInvoiceBlob (db : DB) (oid' : Int) (url : String) (oid : Int) :
    statusOf (setInvoiceBlob db oid' url) oid = statusOf db oid := by
  unfold statusOf
  rw [selectOrder_setInvoiceBlob]
  cases selectOrder db oid with
  | none => rfl
  | some r =>
    simp only [Option.map_some']
    congr 1
    dsimp only
    split <;> rfl

theorem statusOf_updateOrderStatus_self (db : DB) (oid' : Int) (st : String) (oid : Int) :
    statusOf (updateOrderStatus db oid' st) oid =
      (statusOf db oid).map (fun s => if oid = oid' then st else s) := by
  unfold statusOf at *
  rw [selectOrder_updateOrderStatus]
  cases hsel : selectOrder db oid with
  | none => rfl
  | some r =>
    have hid := List.find?_some hsel
    rw [beq_iff_eq] at hid
    simp only [Option.map_some']
    congr 1
    dsimp only
    by_cases heq : oid = oid'
    · rw [if_pos heq]
      have : (r.order_id == oid') = true := by rw [beq_iff_eq, hid, heq]
      rw [if_pos this]
    · rw [if_neg heq]
      have : (r.order_id == oid') = false := by
        rw [Bool.eq_false_iff]
        intro hc
        exact heq (hid ▸ beq_iff_eq.mp hc)
      rw [this]
      simp

/-- A `confirm_order` invocation never writes any status other than
"confirmed": an order reading back "confirmed" still reads back "confirmed"
afterwards. -/
theorem confirm_order_preserves_confirmed (oid' : Int) (now : Nat) (db : DB) (bs : BlobStore)
    (oid : Int) (h : statusOf db oid = some "confirmed") :
    statusOf (confirm_order oid' now db bs).1 oid = some "confirmed" := by
  unfold confirm_order confirmTxn
  cases hsel : selectOrder db oid' with
  | none => exact h
  | some o =>
    simp only
    rw [statusOf_setInvoiceBlob, statusOf_insertInvoice,
      statusOf_updateOrderStatus_self db oid' "confirmed" oid, h]
    by_cases heq : oid = oid' <;> simp [heq]

/-! ## Toolkit: blob-store lemmas -/

theorem blobLookup_uploadBlob_self (bs : BlobStore) (n : String) (d : InvoiceDoc) :
    blobLookup (uploadBlob bs n d) n = some d := by
  unfold blobLookup uploadBlob
  by_cases hany : bs.any (fun e => e.1 == n) = true
  · rw [if_pos hany]
    rw [List.any_eq_true] at hany
    obtain ⟨e, he, hkey⟩ := hany
    induction bs with
    | nil => cases he
    | cons e0 bs ih =>
      rw [List.map_cons, List.find?_cons]
      by_cases h0 : (e0.1 == n) = true
      · rw [if_pos h0]
        simp [h0]
      · have h0' : (e0.1 == n) = false := Bool.eq_false_iff.mpr h0
        simp only [h0', Bool.false_eq_true, if_false]
        rcases List.mem_cons.mp he with h | h
        · exact absurd (h ▸ hkey) h0
        · exact ih h
  · rw [if_neg hany]
    rw [Bool.not_eq_true, List.any_eq_false] at hany
    rw [List.find?_append]
    have hnone : bs.find? (fun e => e.1 == n) = none := by
      rw [List.find?_eq_none]
      exact hany
    rw [hnone]
    simp

theorem countName_uploadBlob_self (bs : BlobStore) (n : String) (d : InvoiceDoc)
    (h : countName bs n ≤ 1) : countName (uploadBlob bs n d) n = 1 := by
  unfold countName uploadBlob at *
  by_cases hany : bs.any (fun e => e.1 == n) = true
  · rw [if_pos hany]
    rw [List.countP_map]
    have hc : bs.countP ((fun e : String × InvoiceDoc => e.1 == n) ∘
        (fun e : String × InvoiceDoc => if e.1 == n then (n, d) else e)) =
        bs.countP (fun e => e.1 == n) := by
      apply List.countP_congr
      intro e _
      simp only [Function.comp_apply]
      by_cases hk : (e.1 == n) = true
      · rw [if_pos hk, hk]
        simp
      · rw [if_neg hk]
    rw [hc]
    rw [List.any_eq_true] at hany
    obtain ⟨e, he, hk⟩ := hany
    have hpos : 0 < bs.countP (fun e => e.1 == n) :=
      List.countP_pos_iff.mpr ⟨e, he, hk⟩
    exact Nat.le_antisymm h hpos
  · rw [if_neg hany]
    rw [Bool.not_eq_true, List.any_eq_false] at hany
    rw [List.countP_append]
    have hz : bs.countP (fun e => e.1 == n) = 0 := by
      rw [List.countP_eq_zero]
      exact hany
    rw [hz]
    simp

theorem countName_uploadBlob_other (bs : BlobStore) (n n' : String) (d : InvoiceDoc)
    (h : n' ≠ n) : countName (uploadBlob bs n d) n' = countName bs n' := by
  unfold countName uploadBlob
  by_cases hany : bs.any (fun e => e.1 == n) = true
  · rw [if_pos hany, List.countP_map]
    apply List.countP_congr
    intro e _
    simp only [Function.comp_apply]
    by_cases hk : (e.1 == n) = true
    · rw [if_pos hk]
      have h1 : (n == n') = false := by
        rw [Bool.eq_false_iff]
        intro hc
        exact h (beq_iff_eq.mp hc).symm
      have h2 : (e.1 == n') = false := by
        rw [Bool.eq_false_iff]
        intro hc
        exact h (beq_iff_eq.mp hc ▸ beq_iff_eq.mp hk)
      rw [h1, h2]
    · rw [if_neg hk]
  · rw [if_neg hany]
    rw [List.countP_append]
    have : ((n, d).1 == n') = false := by
      rw [Bool.eq_false_iff]
      intro hc
      exact h (beq_iff_eq.mp hc).symm
    simp [this]

/-! ## Toolkit: fault-model agreement with the pure semantics -/

theorem runStmts_ok_foldl (or : Oracle) (fs : List (DB → DB)) (k : Nat) (db : DB)
    (p : DB × Nat) (h : runStmts or fs k db = .ok p) :
    p.1 = fs.foldl (fun d f => f d) db := by
  induction fs generalizing k db with
  | nil =>
    unfold runStmts at h
    cases h
    rfl
  | cons f fs ih =>
    unfold runStmts at h
    split at h
    · cases h
    · exact ih _ _ h

/-- A committed (fault-free up to completion) run of the statement list of
`process_order` produces exactly the pure transaction result. -/
theorem processStmtList_foldl (ev : OrderEvent) (db : DB) :
    (processStmtList ev db).foldl (fun d f => f d) db = processOrderTxn ev db := by
  unfold processStmtList processOrderTxn reserveStep
  cases hsel : selectOrder db ev.order_id <;>
    simp [List.foldl_append, List.foldl_map, List.foldl_cons]

theorem processOrderTxnF_ok (or : Oracle) (ev : OrderEvent) (db db1 : DB)
    (h : processOrderTxnF or ev db = .ok db1) : db1 = processOrderTxn ev db := by
  unfold processOrderTxnF at h
  cases hr : runStmts or (processStmtList ev db) 0 db with
  | error e => rw [hr] at h; cases h
  | ok p =>
    rw [hr] at h
    cases h
    show p.1 = processOrderTxn ev db
    rw [runStmts_ok_foldl or (processStmtList ev db) 0 db p hr, processStmtList_foldl]

theorem confirmTxnF_ok (or : Oracle) (db : DB) (oid : Int) (now : Nat)
    (x : DB × Option (OrderRow × List ItemRow × ℚ))
    (h : confirmTxnF or db oid now = .ok x) : x = confirmTxn db oid now := by
  unfold confirmTxnF at h
  unfold confirmTxn
  by_cases h0 : or 0 = true
  · rw [if_pos h0] at h; cases h
  · rw [if_neg h0] at h
    cases hsel : selectOrder db oid with
    | none =>
      rw [hsel] at h
      cases h
      rfl
    | some o =>
      rw [hsel] at h
      dsimp only at h ⊢
      by_cases h1 : or 1 = true
      · rw [if_pos h1] at h; cases h
      · rw [if_neg h1] at h
        by_cases h2 : or 2 = true
        · rw [if_pos h2] at h; cases h
        · rw [if_neg h2] at h
          by_cases h3 : or 3 = true
          · rw [if_pos h3] at h; cases h
          · rw [if_neg h3] at h
            cases h
            rfl

/-! ## Claims -/

/-- C6: the Reservation Handler's inventory decrement is unconditional.
When no (`product_id`, `warehouse_id`) row matches, the statement is a
silent no-op leaving the whole database unchanged; when a row matches, the
stored quantity becomes the old quantity minus the request — the operation
is total, so no error is possible and a negative result is stored as-is. -/
theorem decrement_inventory_unconditional : ∀ (db : DB) (pid wid qty : Int),
    (invQty db pid wid = none → decrementInventory db pid wid qty = db) ∧
    ∀ q, invQty db pid wid = some q →
      invQty (decrementInventory db pid wid qty) pid wid = some (q - qty) := by
  intro db pid wid qty
  constructor
  · intro h
    unfold invQty at h
    cases hf : db.inventory.find? (fun r => r.product_id == pid && r.warehouse_id == wid) with
    | some r => rw [hf] at h; cases h
    | none =>
      unfold decrementInventory
      have hmap : db.inventory.map (fun r =>
          if r.product_id == pid && r.warehouse_id == wid then
            { r with quantity := r.quantity - qty }
          else r) = db.inventory := by
        apply map_eq_self_of_mem
        intro r hr
        have hnp := List.find?_eq_none.mp hf r hr
        rw [Bool.not_eq_true] at hnp
        rw [hnp]
        simp
      rw [hmap]
  · intro q h
    have hd : decrementInventory db pid wid qty =
        List.foldl (decStep wid) db [⟨pid, qty, 0⟩] := by
      rw [List.foldl_cons, List.foldl_nil]
      rfl
    rw [hd, invQty_foldl_decStep, h]
    have hr : reqSum [⟨pid, qty, 0⟩] pid = qty := by
      unfold reqSum
      simp
    rw [Option.map_some', hr]

/-- C6 witness: on inventory holding one row (10, 5) with quantity 1, a
decrement of a nonexistent product 99 leaves the database unchanged, and a
decrement of 5 against quantity 1 stores the negative quantity -4. -/
theorem decrement_inventory_unconditional_witness :
    decrementInventory ⟨[], [⟨10, 5, 1⟩], [], []⟩ 99 5 3 = ⟨[], [⟨10, 5, 1⟩], [], []⟩ ∧
    invQty (decrementInventory ⟨[], [⟨10, 5, 1⟩], [], []⟩ 10 5 5) 10 5 = some (1 - 5) := by
  constructor
  · exact (decrement_inventory_unconditional ⟨[], [⟨10, 5, 1⟩], [], []⟩ 99 5 3).1 (by decide)
  · exact (decrement_inventory_unconditional ⟨[], [⟨10, 5, 1⟩], [], []⟩ 10 5 5).2 1 (by decide)

/-- C1 counterexample: the claim "exactly N order_item rows exist for that
order" fails as stated.  The event for order 1 carries N = 2 items (both
for product 10), while order 1 already owns two order_item rows (products
98 and 99); after processing, the order owns 3 order_item rows, not 2. -/
theorem process_order_item_rows_counterexample :
    (selectOrderItems
      (processOrderTxn ⟨1, 5, [⟨10, 2, 9⟩, ⟨10, 3, 9⟩]⟩
        ⟨[], [⟨10, 5, 50⟩], [⟨1, 98, 1, 2⟩, ⟨1, 99, 1, 2⟩], []⟩) 1).length ≠
    ([(⟨10, 2, 9⟩ : EventItem), ⟨10, 3, 9⟩].length : Nat) := by
  decide

/-- C1 (amended): for an OrderEvent whose items carry pairwise-distinct
product ids, applied to a database holding no order_item rows for the
event's order id yet: afterwards the order reads back with status
"reserved"; the order's order_item rows are exactly one row per event item,
in event order, carrying the event's quantities and prices (hence exactly N
rows for N items); and each referenced inventory row of the event's
warehouse holds its pre-event quantity minus the requested quantity (a
missing row stays missing). -/
theorem process_order_fresh_event_postcondition (ev : OrderEvent) (db : DB)
    (hnd : (ev.items.map (fun it => it.product_id)).Nodup)
    (hpre : ∀ r ∈ db.order_items, r.order_id ≠ ev.order_id) :
    statusOf (processOrderTxn ev db) ev.order_id = some "reserved" ∧
    selectOrderItems (processOrderTxn ev db) ev.order_id =
      ev.items.map (mkRow ev.order_id) ∧
    (selectOrderItems (processOrderTxn ev db) ev.order_id).length = ev.items.length ∧
    ∀ it ∈ ev.items, invQty (processOrderTxn ev db) it.product_id ev.warehouse_id =
      (invQty db it.product_id ev.warehouse_id).map (fun q => q - it.quantity) := by
  have hmid : (List.foldl (decStep ev.warehouse_id) (reserveStep ev db)
      ev.items).order_items = db.order_items := by
    rw [foldl_decStep_order_items, reserveStep_order_items]
  have hoi : (processOrderTxn ev db).order_items =
      db.order_items ++ ev.items.map (mkRow ev.order_id) := by
    rw [processOrderTxn_order_items]
    rw [foldl_upsStep_fresh _ _ _ ?_ hnd]
    · rw [hmid]
    · intro r hr hoid
      rw [hmid] at hr
      exact absurd hoid (hpre r hr)
  have hsel : selectOrderItems (processOrderTxn ev db) ev.order_id =
      ev.items.map (mkRow ev.order_id) := by
    unfold selectOrderItems
    rw [hoi, List.filter_append]
    have h1 : db.order_items.filter (fun r => r.order_id == ev.order_id) = [] := by
      rw [List.filter_eq_nil_iff]
      intro r hr
      simp only [beq_iff_eq]
      exact hpre r hr
    have h2 : (ev.items.map (mkRow ev.order_id)).filter
        (fun r => r.order_id == ev.order_id) = ev.items.map (mkRow ev.order_id) := by
      rw [List.filter_eq_self]
      intro r hr
      obtain ⟨it, _, heq⟩ := List.mem_map.mp hr
      rw [← heq]
      simp [mkRow]
    rw [h1, h2, List.nil_append]
  refine ⟨statusOf_processOrderTxn ev db, hsel, ?_, ?_⟩
  · rw [hsel, List.length_map]
  · intro it hmem
    rw [invQty_processOrderTxn, reqSum_of_nodup ev.items it hnd hmem]

/-- C1 witness: scenario A of the specification — event
order 1, warehouse 5, one item (product 10, quantity 2, price 9), on a
store holding inventory row (10, 5) with quantity 7 and no order rows. -/
theorem process_order_fresh_event_postcondition_witness :
    statusOf (processOrderTxn ⟨1, 5, [⟨10, 2, 9⟩]⟩ ⟨[], [⟨10, 5, 7⟩], [], []⟩) 1 =
      some "reserved" ∧
    selectOrderItems (processOrderTxn ⟨1, 5, [⟨10, 2, 9⟩]⟩ ⟨[], [⟨10, 5, 7⟩], [], []⟩) 1 =
      [⟨1, 10, 2, 9⟩] ∧
    (selectOrderItems (processOrderTxn ⟨1, 5, [⟨10, 2, 9⟩]⟩ ⟨[], [⟨10, 5, 7⟩], [], []⟩)
      1).length = 1 ∧
    invQty (processOrderTxn ⟨1, 5, [⟨10, 2, 9⟩]⟩ ⟨[], [⟨10, 5, 7⟩], [], []⟩) 10 5 =
      some (7 - 2) := by
  have h := process_order_fresh_event_postcondition ⟨1, 5, [⟨10, 2, 9⟩]⟩
    ⟨[], [⟨10, 5, 7⟩], [], []⟩ (by decide) (by intro r hr; cases hr)
  refine ⟨h.1, h.2.1, h.2.2.1, ?_⟩
  have h4 := h.2.2.2 ⟨10, 2, 9⟩ (List.mem_cons_self _ _)
  exact h4

/-- C4 counterexample: the claim "status never regresses from confirmed
back to reserved" fails — a reservation event for order 1, delivered while
order 1 is already "confirmed", resets its status to "reserved". -/
theorem confirmed_order_regression_counterexample :
    statusOf (⟨[⟨1, 5, "confirmed", none⟩], [], [], []⟩ : DB) 1 = some "confirmed" ∧
    statusOf (processOrderTxn ⟨1, 5, []⟩ ⟨[⟨1, 5, "confirmed", none⟩], [], [], []⟩) 1 =
      some "reserved" := by
  constructor
  · decide
  · decide

/-- C4 (amended): the status field regresses only through the Reservation
Handler.  Any sequence of Confirmation Handler invocations preserves a
"confirmed" status, while a single Reservation Handler invocation for an
already-"confirmed" order resets it to "reserved" (the upsert does not
guard against the downgrade). -/
theorem status_monotone_under_confirmation (l : List (Int × Nat)) (db : DB)
    (bs : BlobStore) (oid : Int) (h : statusOf db oid = some "confirmed") :
    statusOf (confirmRun l db bs).1 oid = some "confirmed" ∧
    ∀ (ev : OrderEvent) (db' : DB), statusOf db' ev.order_id = some "confirmed" →
      statusOf (processOrderTxn ev db') ev.order_id = some "reserved" := by
  constructor
  · unfold confirmRun
    induction l generalizing db bs with
    | nil => exact h
    | cons c l ih =>
      rw [List.foldl_cons]
      exact ih _ _ (confirm_order_preserves_confirmed c.1 c.2 db bs oid h)
  · intro ev db' _
    exact statusOf_processOrderTxn ev db'

/-- C4 witness: order 1 is "confirmed"; a confirmation redelivery keeps it
"confirmed", while a redelivered reservation event resets it to "reserved". -/
theorem status_monotone_under_confirmation_witness :
    statusOf (confirmRun [(1, 7)] ⟨[⟨1, 5, "confirmed", none⟩], [], [], []⟩ []).1 1 =
      some "confirmed" ∧
    statusOf (processOrderTxn ⟨1, 5, []⟩ ⟨[⟨1, 5, "confirmed", none⟩], [], [], []⟩) 1 =
      some "reserved" := by
  have h := status_monotone_under_confirmation [(1, 7)]
    ⟨[⟨1, 5, "confirmed", none⟩], [], [], []⟩ [] 1 (by decide)
  exact ⟨h.1, h.2 ⟨1, 5, []⟩ ⟨[⟨1, 5, "confirmed", none⟩], [], [], []⟩ (by decide)⟩

/-- The found-order branch of `confirm_order`, as one equation. -/
theorem confirm_order_found (db : DB) (bs : BlobStore) (oid : Int) (now : Nat) (o : OrderRow)
    (hsel : selectOrder db oid = some o) :
    confirm_order oid now db bs =
      (setInvoiceBlob (insertInvoice (updateOrderStatus db oid "confirmed") oid now) oid
        (blobUrl (blobName oid)),
       uploadBlob bs (blobName oid)
         (renderInvoice oid o.warehouse_id
           (selectOrderItems (updateOrderStatus db oid "confirmed") oid)
           (itemsTotal (selectOrderItems (updateOrderStatus db oid "confirmed") oid)))) := by
  unfold confirm_order confirmTxn
  rw [hsel]

/-- C5: a ConfirmationEvent naming an order id with no matching order row
makes the Confirmation Handler return normally: whatever faults threaten
the later statements, it performs no mutation of any table, raises no
exception, and attempts no upload; the fault-free run likewise returns the
store untouched. -/
theorem confirm_missing_order_skips (orc : Oracle) (upFail : Bool) (or2 : Oracle)
    (oid : Int) (now : Nat) (db : DB) (bs : BlobStore)
    (h0 : orc 0 = false) (h : selectOrder db oid = none) :
    confirm_orderF orc upFail or2 oid now db bs = ⟨db, bs, false⟩ ∧
    confirm_order oid now db bs = (db, bs) := by
  constructor
  · unfold confirm_orderF confirmTxnF
    rw [h0, h]
    rfl
  · unfold confirm_order confirmTxn
    rw [h]

/-- C5 witness: confirming order 999 against a store holding only order 1
returns the store untouched without raising, even though a fault is armed
for every later statement. -/
theorem confirm_missing_order_skips_witness :
    confirm_orderF (fun k => decide (0 < k)) true (fun _ => true) 999 7
        ⟨[⟨1, 5, "reserved", none⟩], [], [], []⟩ [] =
      ⟨⟨[⟨1, 5, "reserved", none⟩], [], [], []⟩, [], false⟩ ∧
    confirm_order 999 7 ⟨[⟨1, 5, "reserved", none⟩], [], [], []⟩ [] =
      (⟨[⟨1, 5, "reserved", none⟩], [], [], []⟩, []) :=
  confirm_missing_order_skips (fun k => decide (0 < k)) true (fun _ => true) 999 7
    ⟨[⟨1, 5, "reserved", none⟩], [], [], []⟩ [] (by decide) (by decide)

/-- C2: reserving an order and then confirming it leaves the order with
status "confirmed", and the invoice total carried by the uploaded document
equals the sum over the order's stored order_item rows of quantity times
price — the very sum the handler computes in floating point. -/
theorem reserve_then_confirm_total (ev : OrderEvent) (db : DB) (bs : BlobStore) (now : Nat) :
    statusOf (confirm_order ev.order_id now (processOrderTxn ev db) bs).1 ev.order_id =
      some "confirmed" ∧
    (blobLookup (confirm_order ev.order_id now (processOrderTxn ev db) bs).2
        (blobName ev.order_id)).map (fun d => d.total) =
      some (itemsTotal (selectOrderItems
        (confirm_order ev.order_id now (processOrderTxn ev db) bs).1 ev.order_id)) := by
  have hres := statusOf_processOrderTxn ev db
  obtain ⟨o, hsel⟩ : ∃ o, selectOrder (processOrderTxn ev db) ev.order_id = some o := by
    unfold statusOf at hres
    cases hs : selectOrder (processOrderTxn ev db) ev.order_id with
    | none => rw [hs] at hres; cases hres
    | some o => exact ⟨o, rfl⟩
  rw [confirm_order_found (processOrderTxn ev db) bs ev.order_id now o hsel]
  constructor
  · rw [statusOf_setInvoiceBlob, statusOf_insertInvoice, statusOf_updateOrderStatus_self,
      hres]
    simp
  · rw [blobLookup_uploadBlob_self]
    have hitems : selectOrderItems
        (setInvoiceBlob (insertInvoice (updateOrderStatus (processOrderTxn ev db)
          ev.order_id "confirmed") ev.order_id now) ev.order_id
          (blobUrl (blobName ev.order_id))) ev.order_id =
        selectOrderItems (updateOrderStatus (processOrderTxn ev db) ev.order_id "confirmed")
          ev.order_id := by
      apply selectOrderItems_congr
      rw [setInvoiceBlob_order_items, insertInvoice_order_items]
    rw [hitems]
    rfl

/-- C7: delivering the same reservation event twice leaves the order
"reserved" with a single order row (no duplicate insert), leaves the
order_item table exactly as after the first delivery, but applies the
inventory decrement a second time: every product of the event ends at its
original quantity minus twice the quantity the event requests for it. -/
theorem duplicate_reservation_event_effects (ev : OrderEvent) (db : DB)
    (hpk : countOrders db ev.order_id ≤ 1) :
    statusOf (processOrderTxn ev (processOrderTxn ev db)) ev.order_id = some "reserved" ∧
    countOrders (processOrderTxn ev (processOrderTxn ev db)) ev.order_id = 1 ∧
    (processOrderTxn ev (processOrderTxn ev db)).order_items =
      (processOrderTxn ev db).order_items ∧
    ∀ it ∈ ev.items, invQty (processOrderTxn ev (processOrderTxn ev db)) it.product_id
        ev.warehouse_id =
      (invQty db it.product_id ev.warehouse_id).map
        (fun q => q - 2 * reqSum ev.items it.product_id) := by
  refine ⟨statusOf_processOrderTxn ev _, ?_, ?_, ?_⟩
  · apply countOrders_processOrderTxn
    rw [countOrders_processOrderTxn ev db hpk]
  · have hmid2 : (List.foldl (decStep ev.warehouse_id)
        (reserveStep ev (processOrderTxn ev db)) ev.items).order_items =
        (processOrderTxn ev db).order_items := by
      rw [foldl_decStep_order_items, reserveStep_order_items]
    have hany : ∀ it ∈ ev.items,
        (List.foldl (decStep ev.warehouse_id)
          (reserveStep ev (processOrderTxn ev db)) ev.items).order_items.any
          (keyMatch ev.order_id it.product_id) = true := by
      intro it hmem
      rw [hmid2, processOrderTxn_order_items]
      exact foldl_upsStep_any ev.items ev.order_id _ it hmem
    rw [processOrderTxn_order_items ev (processOrderTxn ev db),
      foldl_upsStep_of_all_any ev.items ev.order_id _ hany, hmid2,
      processOrderTxn_order_items ev db, foldl_upsStep_overwrite_id,
      ← processOrderTxn_order_items]
  · intro it hmem
    rw [invQty_processOrderTxn, invQty_processOrderTxn, Option.map_map]
    cases invQty db it.product_id ev.warehouse_id with
    | none => rfl
    | some q =>
      simp only [Option.map_some', Function.comp_apply]
      congr 1
      omega

/-- C7 witness: the event of scenario A delivered twice on inventory
quantity 7 ends "reserved" with one order row, identical order_item rows,
and inventory 7 - 2·2 = 3. -/
theorem duplicate_reservation_event_effects_witness :
    statusOf (processOrderTxn ⟨1, 5, [⟨10, 2, 9⟩]⟩
        (processOrderTxn ⟨1, 5, [⟨10, 2, 9⟩]⟩ ⟨[], [⟨10, 5, 7⟩], [], []⟩)) 1 =
      some "reserved" ∧
    countOrders (processOrderTxn ⟨1, 5, [⟨10, 2, 9⟩]⟩
        (processOrderTxn ⟨1, 5, [⟨10, 2, 9⟩]⟩ ⟨[], [⟨10, 5, 7⟩], [], []⟩)) 1 = 1 ∧
    (processOrderTxn ⟨1, 5, [⟨10, 2, 9⟩]⟩
        (processOrderTxn ⟨1, 5, [⟨10, 2, 9⟩]⟩ ⟨[], [⟨10, 5, 7⟩], [], []⟩)).order_items =
      (processOrderTxn ⟨1, 5, [⟨10, 2, 9⟩]⟩ ⟨[], [⟨10, 5, 7⟩], [], []⟩).order_items ∧
    invQty (processOrderTxn ⟨1, 5, [⟨10, 2, 9⟩]⟩
        (processOrderTxn ⟨1, 5, [⟨10, 2, 9⟩]⟩ ⟨[], [⟨10, 5, 7⟩], [], []⟩)) 10 5 =
      some (7 - 2 * reqSum [⟨10, 2, 9⟩] 10) := by
  have h := duplicate_reservation_event_effects ⟨1, 5, [⟨10, 2, 9⟩]⟩
    ⟨[], [⟨10, 5, 7⟩], [], []⟩ (by decide)
  exact ⟨h.1, h.2.1, h.2.2.1, h.2.2.2 ⟨10, 2, 9⟩ (List.mem_cons_self _ _)⟩

/-- C8 counterexample: the handler does upload exactly one document for
order 7, but it lives at `blobName 7` = "invoice_order_7.pdf", and nothing
is stored at the key the claim names (`specBlobKey 7` =
"invoice_order_7"). -/
theorem invoice_blob_key_counterexample :
    countName (confirm_order 7 0 ⟨[⟨7, 5, "reserved", none⟩], [], [], []⟩ []).2
      (blobName 7) = 1 ∧
    blobLookup (confirm_order 7 0 ⟨[⟨7, 5, "reserved", none⟩], [], [], []⟩ []).2
      (specBlobKey 7) = none ∧
    blobName 7 ≠ specBlobKey 7 := by
  refine ⟨by decide, by decide, by decide⟩

/-- C8 (amended): for every found order the Confirmation Handler performs
exactly one upload, at the key `invoice_order_{order_id}.pdf` — a
deterministic function of the order id alone; afterwards exactly one blob
of that name exists, every other name is untouched, and a second
confirmation for the same order overwrites the blob in place, leaving the
count at one. -/
theorem invoice_upload_key_and_overwrite (db : DB) (bs : BlobStore) (oid : Int)
    (now now2 : Nat) (o : OrderRow) (hsel : selectOrder db oid = some o)
    (hbs : countName bs (blobName oid) ≤ 1) :
    (confirm_order oid now db bs).2 =
      uploadBlob bs (blobName oid)
        (renderInvoice oid o.warehouse_id
          (selectOrderItems (updateOrderStatus db oid "confirmed") oid)
          (itemsTotal (selectOrderItems (updateOrderStatus db oid "confirmed") oid))) ∧
    countName (confirm_order oid now db bs).2 (blobName oid) = 1 ∧
    (∀ n, n ≠ blobName oid → countName (confirm_order oid now db bs).2 n = countName bs n) ∧
    countName (confirm_order oid now2 (confirm_order oid now db bs).1
        (confirm_order oid now db bs).2).2 (blobName oid) = 1 := by
  have hmain := confirm_order_found db bs oid now o hsel
  refine ⟨by rw [hmain], ?_, ?_, ?_⟩
  · rw [hmain]
    exact countName_uploadBlob_self bs (blobName oid) _ hbs
  · intro n hn
    rw [hmain]
    exact countName_uploadBlob_other bs (blobName oid) n _ hn
  · obtain ⟨o2, hsel2⟩ : ∃ o2, selectOrder (confirm_order oid now db bs).1 oid = some o2 := by
      rw [hmain]
      dsimp only
      rw [selectOrder_setInvoiceBlob]
      rw [show selectOrder (insertInvoice (updateOrderStatus db oid "confirmed") oid now)
          oid = selectOrder (updateOrderStatus db oid "confirmed") oid from rfl]
      rw [selectOrder_updateOrderStatus, hsel]
      exact ⟨_, rfl⟩
    rw [confirm_order_found _ _ oid now2 o2 hsel2]
    apply countName_uploadBlob_self
    rw [hmain]
    rw [countName_uploadBlob_self bs (blobName oid) _ hbs]

/-- C8 witness: confirming order 7 twice against an empty blob store: one
blob named by `blobName 7` after the first run, count unchanged at the
claim's suffixless key, and still exactly one blob after the rerun. -/
theorem invoice_upload_key_and_overwrite_witness :
    countName (confirm_order 7 0 ⟨[⟨7, 5, "reserved", none⟩], [], [], []⟩ []).2
      (blobName 7) = 1 ∧
    countName (confirm_order 7 0 ⟨[⟨7, 5, "reserved", none⟩], [], [], []⟩ []).2
      (specBlobKey 7) = countName ([] : BlobStore) (specBlobKey 7) ∧
    countName (confirm_order 7 1
        (confirm_order 7 0 ⟨[⟨7, 5, "reserved", none⟩], [], [], []⟩ []).1
        (confirm_order 7 0 ⟨[⟨7, 5, "reserved", none⟩], [], [], []⟩ []).2).2
      (blobName 7) = 1 := by
  have h := invoice_upload_key_and_overwrite ⟨[⟨7, 5, "reserved", none⟩], [], [], []⟩ []
    7 0 1 ⟨7, 5, "reserved", none⟩ (by decide) (by decide)
  exact ⟨h.2.1, h.2.2.1 (specBlobKey 7) (by decide), h.2.2.2⟩

/-- The total carried by the uploaded invoice equals the handler's sum over
the order's stored item rows. -/
theorem confirm_uploaded_total (db : DB) (bs : BlobStore) (oid : Int) (now : Nat)
    (o : OrderRow) (hsel : selectOrder db oid = some o) :
    (blobLookup (confirm_order oid now db bs).2 (blobName oid)).map (fun d => d.total) =
      some (itemsTotal (selectOrderItems db oid)) := by
  rw [confirm_order_found db bs oid now o hsel]
  dsimp only
  rw [blobLookup_uploadBlob_self]
  rw [selectOrderItems_congr (updateOrderStatus db oid "confirmed") db oid
    (updateOrderStatus_order_items db oid "confirmed")]
  rfl

theorem countItems_congr (db db' : DB) (oid pid : Int)
    (h : db.order_items = db'.order_items) : countItems db oid pid = countItems db' oid pid := by
  unfold countItems
  rw [h]

theorem ItemsPK_congr (db db' : DB) (h : db.order_items = db'.order_items)
    (hpk : ItemsPK db) : ItemsPK db' := by
  intro oid pid
  rw [← countItems_congr db db' oid pid h]
  exact hpk oid pid

/-- C9: when an OrderEvent lists the same product_id more than once, the
Reservation Handler decrements that product's inventory row once per
occurrence — in total by the sum of all occurrence quantities — yet exactly
one order_item row remains for the (order_id, product_id) pair, carrying
only the last occurrence's quantity and price; the invoice total the
Confirmation Handler later computes is the sum over these stored rows, so
every earlier occurrence is omitted from it. -/
theorem duplicate_product_id_effects (ev : OrderEvent) (db : DB)
    (hpk : ItemsPK db)
    (_hdup : ∃ pid, 1 < (ev.items.filter (fun it => it.product_id == pid)).length) :
    ∀ pid ∈ ev.items.map (fun it => it.product_id),
      invQty (processOrderTxn ev db) pid ev.warehouse_id =
        (invQty db pid ev.warehouse_id).map (fun q => q - reqSum ev.items pid) ∧
      countItems (processOrderTxn ev db) ev.order_id pid = 1 ∧
      itemFind (processOrderTxn ev db) ev.order_id pid =
        (lastVal ev.items pid).map (fun v => ⟨ev.order_id, pid, v.1, v.2⟩) ∧
      ∀ (now : Nat) (bs : BlobStore),
        (blobLookup (confirm_order ev.order_id now (processOrderTxn ev db) bs).2
            (blobName ev.order_id)).map (fun d => d.total) =
          some (itemsTotal (selectOrderItems (processOrderTxn ev db) ev.order_id)) := by
  intro pid hpid
  have hmid : (List.foldl (decStep ev.warehouse_id) (reserveStep ev db)
      ev.items).order_items = db.order_items := by
    rw [foldl_decStep_order_items, reserveStep_order_items]
  have hpkmid : ItemsPK (List.foldl (decStep ev.warehouse_id) (reserveStep ev db) ev.items) :=
    ItemsPK_congr db _ hmid.symm hpk
  have hcount : countItems (processOrderTxn ev db) ev.order_id pid = 1 := by
    rw [countItems_congr (processOrderTxn ev db)
      (ev.items.foldl (upsStep ev.order_id)
        (List.foldl (decStep ev.warehouse_id) (reserveStep ev db) ev.items)) ev.order_id pid
      (processOrderTxn_order_items ev db)]
    exact countItems_foldl_upsStep_of_mem ev.items ev.order_id pid _ hpkmid hpid
  refine ⟨invQty_processOrderTxn ev db pid, hcount, ?_, ?_⟩
  · obtain ⟨r, hfind⟩ : ∃ r, itemFind (processOrderTxn ev db) ev.order_id pid = some r := by
      have hpos : 0 < countItems (processOrderTxn ev db) ev.order_id pid := by
        rw [hcount]
        exact Nat.one_pos
      unfold countItems at hpos
      obtain ⟨r, hr, hk⟩ := List.countP_pos_iff.mp hpos
      unfold itemFind
      cases hf : (processOrderTxn ev db).order_items.find? (keyMatch ev.order_id pid) with
      | some r' => exact ⟨r', rfl⟩
      | none =>
        exfalso
        exact absurd hk (List.find?_eq_none.mp hf r hr)
    have hrmem : r ∈ (processOrderTxn ev db).order_items := by
      unfold itemFind at hfind
      exact List.mem_of_find?_eq_some hfind
    have hfind2 : (processOrderTxn ev db).order_items.find? (keyMatch ev.order_id pid) =
        some r := hfind
    have hrkey := List.find?_some hfind2
    obtain ⟨hroid, hrpid⟩ := (keyMatch_eq_true ev.order_id pid r).mp hrkey
    obtain ⟨v, hlast⟩ : ∃ v, lastVal ev.items pid = some v := by
      have h := lastVal_isSome_of_mem ev.items pid hpid
      cases hl : lastVal ev.items pid with
      | none => rw [hl] at h; cases h
      | some v => exact ⟨v, rfl⟩
    have hvals : r.quantity = v.1 ∧ r.price = v.2 := by
      apply foldl_upsStep_last_values ev.items ev.order_id
        (List.foldl (decStep ev.warehouse_id) (reserveStep ev db) ev.items) r
      · rw [← processOrderTxn_order_items ev db]
        exact hrmem
      · exact hroid
      · rw [hrpid]
        exact hlast
    rw [hfind, hlast]
    simp only [Option.map_some']
    congr 1
    cases r
    simp_all
  · intro now bs
    obtain ⟨o, hsel⟩ : ∃ o, selectOrder (processOrderTxn ev db) ev.order_id = some o := by
      have h := statusOf_processOrderTxn ev db
      unfold statusOf at h
      cases hs : selectOrder (processOrderTxn ev db) ev.order_id with
      | none => rw [hs] at h; cases h
      | some o => exact ⟨o, rfl⟩
    exact confirm_uploaded_total (processOrderTxn ev db) bs ev.order_id now o hsel

/-- C9 witness: the event for order 1 lists product 10 twice (quantities 2
then 3); inventory 50 is decremented by both occurrences, one row remains
with the second occurrence's values, and the uploaded total sums the stored
rows. -/
theorem duplicate_product_id_effects_witness :
    invQty (processOrderTxn ⟨1, 5, [⟨10, 2, 9⟩, ⟨10, 3, 4⟩]⟩ ⟨[], [⟨10, 5, 50⟩], [], []⟩)
        10 5 =
      (invQty ⟨[], [⟨10, 5, 50⟩], [], []⟩ 10 5).map
        (fun q => q - reqSum [⟨10, 2, 9⟩, ⟨10, 3, 4⟩] 10) ∧
    countItems (processOrderTxn ⟨1, 5, [⟨10, 2, 9⟩, ⟨10, 3, 4⟩]⟩
        ⟨[], [⟨10, 5, 50⟩], [], []⟩) 1 10 = 1 ∧
    itemFind (processOrderTxn ⟨1, 5, [⟨10, 2, 9⟩, ⟨10, 3, 4⟩]⟩
        ⟨[], [⟨10, 5, 50⟩], [], []⟩) 1 10 =
      (lastVal [⟨10, 2, 9⟩, ⟨10, 3, 4⟩] 10).map (fun v => ⟨1, 10, v.1, v.2⟩) ∧
    (blobLookup (confirm_order 1 0 (processOrderTxn ⟨1, 5, [⟨10, 2, 9⟩, ⟨10, 3, 4⟩]⟩
        ⟨[], [⟨10, 5, 50⟩], [], []⟩) []).2 (blobName 1)).map (fun d => d.total) =
      some (itemsTotal (selectOrderItems (processOrderTxn ⟨1, 5, [⟨10, 2, 9⟩, ⟨10, 3, 4⟩]⟩
        ⟨[], [⟨10, 5, 50⟩], [], []⟩) 1)) := by
  have h := duplicate_product_id_effects ⟨1, 5, [⟨10, 2, 9⟩, ⟨10, 3, 4⟩]⟩
    ⟨[], [⟨10, 5, 50⟩], [], []⟩ (fun _ _ => Nat.zero_le 1) ⟨10, by decide⟩ 10 (by decide)
  exact ⟨h.1, h.2.1, h.2.2.1, h.2.2.2 0 []⟩

theorem eq_of_map_eq_self {α : Type _} (l : List α) (f : α → α) (h : l.map f = l) :
    ∀ a ∈ l, f a = a := by
  induction l with
  | nil => intro a ha; cases ha
  | cons x l ih =>
    rw [List.map_cons] at h
    injection h with h1 h2
    intro a ha
    rcases List.mem_cons.mp ha with rfl | ha
    · exact h1
    · exact ih h2 a ha

/-- C3: each transactional block is atomic and failures re-raise.  For
`process_order`: an exception at any numbered statement of its single
transaction leaves the database exactly as before the invocation and
re-raises with nothing sent; a completed transaction equals the pure
transaction semantics (every statement applied); every invocation either
fully commits or fully rolls back.  For `confirm_order`: an exception
anywhere in its first transaction leaves the database and blob store
untouched and re-raises; a completed first transaction equals the pure
semantics; and after a commit, a fault in the second (single-statement)
transaction drops only that statement's `invoice_blob` update, keeps the
committed state and the upload, and re-raises. -/
theorem handler_transactions_atomic :
    (∀ (orc : Oracle) (sendFail : Bool) (ev : OrderEvent) (db : DB),
      (processOrderTxnF orc ev db = .error () →
        process_order orc sendFail ev db = ⟨db, true, []⟩) ∧
      (∀ db1, processOrderTxnF orc ev db = .ok db1 → db1 = processOrderTxn ev db) ∧
      ((process_order orc sendFail ev db).db = processOrderTxn ev db ∨
        process_order orc sendFail ev db = ⟨db, true, []⟩)) ∧
    ∀ (orc : Oracle) (upFail : Bool) (or2 : Oracle) (oid : Int) (now : Nat)
      (db : DB) (bs : BlobStore),
      (confirmTxnF orc db oid now = .error () →
        confirm_orderF orc upFail or2 oid now db bs = ⟨db, bs, true⟩) ∧
      (∀ x, confirmTxnF orc db oid now = .ok x → x = confirmTxn db oid now) ∧
      (∀ db1 o items total,
        confirmTxnF orc db oid now = .ok (db1, some (o, items, total)) →
        confirm_orderF orc false or2 oid now db bs =
          if or2 0 then
            ⟨db1, uploadBlob bs (blobName oid)
              (renderInvoice oid o.warehouse_id items total), true⟩
          else
            ⟨setInvoiceBlob db1 oid (blobUrl (blobName oid)),
              uploadBlob bs (blobName oid)
                (renderInvoice oid o.warehouse_id items total), false⟩) := by
  constructor
  · intro orc sendFail ev db
    refine ⟨?_, ?_, ?_⟩
    · intro h
      unfold process_order
      rw [h]
    · intro db1 h
      exact processOrderTxnF_ok orc ev db db1 h
    · cases hF : processOrderTxnF orc ev db with
      | error e =>
        right
        unfold process_order
        rw [hF]
      | ok db1 =>
        left
        unfold process_order
        rw [hF]
        rw [processOrderTxnF_ok orc ev db db1 hF]
        cases sendFail <;> rfl
  · intro orc upFail or2 oid now db bs
    refine ⟨?_, ?_, ?_⟩
    · intro h
      unfold confirm_orderF
      rw [h]
    · intro x h
      exact confirmTxnF_ok orc db oid now x h
    · intro db1 o items total h
      unfold confirm_orderF
      rw [h]
      dsimp only
      by_cases h2 : or2 0 = true
      · rw [if_pos h2]
        rfl
      · rw [if_neg h2]
        rfl

/-- C3 witness: with a fault armed at statement 0, both handlers roll back
and re-raise on the concrete stores; with no fault, the committed state is
the pure transaction result; and with a fault only in the second confirm
transaction, the first commit and the upload survive while `invoice_blob`
stays unset and the invocation re-raises. -/
theorem handler_transactions_atomic_witness :
    process_order (fun _ => true) false ⟨1, 5, [⟨10, 2, 9⟩]⟩ ⟨[], [⟨10, 5, 7⟩], [], []⟩ =
      ⟨⟨[], [⟨10, 5, 7⟩], [], []⟩, true, []⟩ ∧
    processOrderTxn ⟨1, 5, [⟨10, 2, 9⟩]⟩ ⟨[], [⟨10, 5, 7⟩], [], []⟩ =
      processOrderTxn ⟨1, 5, [⟨10, 2, 9⟩]⟩ ⟨[], [⟨10, 5, 7⟩], [], []⟩ ∧
    confirm_orderF (fun _ => true) false (fun _ => false) 1 0
        ⟨[⟨1, 5, "reserved", none⟩], [], [], []⟩ [] =
      ⟨⟨[⟨1, 5, "reserved", none⟩], [], [], []⟩, [], true⟩ ∧
    (⟨[⟨1, 5, "confirmed", none⟩], [], [], [⟨1, 0⟩]⟩,
        some (⟨1, 5, "reserved", none⟩, [], itemsTotal [])) =
      confirmTxn ⟨[⟨1, 5, "reserved", none⟩], [], [], []⟩ 1 0 ∧
    confirm_orderF (fun _ => false) false (fun _ => true) 1 0
        ⟨[⟨1, 5, "reserved", none⟩], [], [], []⟩ [] =
      if (fun _ : Nat => true) 0 then
        ⟨⟨[⟨1, 5, "confirmed", none⟩], [], [], [⟨1, 0⟩]⟩,
          uploadBlob [] (blobName 1) (renderInvoice 1 5 [] (itemsTotal [])), true⟩
      else
        ⟨setInvoiceBlob ⟨[⟨1, 5, "confirmed", none⟩], [], [], [⟨1, 0⟩]⟩ 1
            (blobUrl (blobName 1)),
          uploadBlob [] (blobName 1) (renderInvoice 1 5 [] (itemsTotal [])), false⟩ := by
  refine ⟨?_, ?_, ?_, ?_, ?_⟩
  · exact (handler_transactions_atomic.1 (fun _ => true) false ⟨1, 5, [⟨10, 2, 9⟩]⟩
      ⟨[], [⟨10, 5, 7⟩], [], []⟩).1 (by rfl)
  · exact (handler_transactions_atomic.1 (fun _ => false) false ⟨1, 5, [⟨10, 2, 9⟩]⟩
      ⟨[], [⟨10, 5, 7⟩], [], []⟩).2.1
      (processOrderTxn ⟨1, 5, [⟨10, 2, 9⟩]⟩ ⟨[], [⟨10, 5, 7⟩], [], []⟩) (by rfl)
  · exact (handler_transactions_atomic.2 (fun _ => true) false (fun _ => false) 1 0
      ⟨[⟨1, 5, "reserved", none⟩], [], [], []⟩ []).1 (by rfl)
  · exact (handler_transactions_atomic.2 (fun _ => false) false (fun _ => false) 1 0
      ⟨[⟨1, 5, "reserved", none⟩], [], [], []⟩ []).2.1
      (⟨[⟨1, 5, "confirmed", none⟩], [], [], [⟨1, 0⟩]⟩,
        some (⟨1, 5, "reserved", none⟩, [], itemsTotal [])) (by rfl)
  · exact (handler_transactions_atomic.2 (fun _ => false) false (fun _ => true) 1 0
      ⟨[⟨1, 5, "reserved", none⟩], [], [], []⟩ []).2.2
      ⟨[⟨1, 5, "confirmed", none⟩], [], [], [⟨1, 0⟩]⟩ ⟨1, 5, "reserved", none⟩ []
      (itemsTotal []) (by rfl)

/-- C10: before parsing, the Confirmation Handler rewrites every
single-quote character (code 39) of its message body to a double quote
(code 34): a body containing a single quote therefore reaches the JSON
parser altered — in particular the Python-dict-style sample payload becomes
the standard double-quoted JSON text — while a body without one passes
through unchanged; the Reservation Handler hands its body to the parser
verbatim. -/
theorem confirm_body_quote_replacement :
    (∀ body : String, processParseInput body = body) ∧
    confirmParseInput "\x7b\x27order_id\x27: 1\x7d" = "\x7b\"order_id\": 1\x7d" ∧
    (∀ body : String, squote ∈ body.data → confirmParseInput body ≠ body) ∧
    (∀ body : String, squote ∉ body.data → confirmParseInput body = body) := by
  refine ⟨fun _ => rfl, by decide, ?_, ?_⟩
  · intro body hmem heq
    have hd : body.data.map (fun c => if c = squote then dquote else c) = body.data :=
      congrArg String.data heq
    have hfix := eq_of_map_eq_self body.data _ hd squote hmem
    rw [if_pos rfl] at hfix
    exact absurd hfix (by decide)
  · intro body hmem
    have hd : body.data.map (fun c => if c = squote then dquote else c) = body.data := by
      apply map_eq_self_of_mem
      intro c hc
      rw [if_neg]
      intro hcq
      exact hmem (hcq ▸ hc)
    calc confirmParseInput body = ⟨body.data.map (fun c => if c = squote then dquote else c)⟩ :=
          rfl
      _ = ⟨body.data⟩ := congrArg String.mk hd
      _ = body := rfl

/-- C10 witness: a body consisting of a single quote is altered before
parsing by the Confirmation Handler, a quote-free body is not, and the
Reservation Handler parses verbatim. -/
theorem confirm_body_quote_replacement_witness :
    processParseInput "abc" = "abc" ∧
    confirmParseInput "\x27" ≠ "\x27" ∧
    confirmParseInput "abc" = "abc" := by
  refine ⟨confirm_body_quote_replacement.1 "abc",
    confirm_body_quote_replacement.2.2.1 "\x27" (by decide),
    confirm_body_quote_replacement.2.2.2 "abc" (by decide)⟩
